import Mathlib

/-!
Verification development for the Parquet value-decoding core
(`src/encodings/decoding.rs`).

Modelling conventions:
* Byte buffers (`BytePtr` views) are `List Nat`, each element a byte value.
* Machine integers are `Nat` / `Int`; the places where wrap-around or
  underflow matters are modelled explicitly.
* Fallible operations return `Outcome`: `ok` for `Ok(..)`, `error` for a
  returned `Err(..)`, and `panic` for an `assert!` failure, an
  out-of-bounds index, an integer division by zero, or a checked
  arithmetic overflow.
* `decode` style methods that mutate `self` and a caller buffer are
  functions returning the result together with the updated state and the
  updated buffer, so partial mutation before an error is observable.
-/

namespace Parquet

/-- Result of a fallible operation: a returned `Ok`, a returned `Err`,
or a panic (failed `assert!`, index out of bounds, division by zero,
arithmetic overflow). -/
inductive Outcome (α : Type) where
  | ok : α → Outcome α
  | error : Outcome α
  | panic : Outcome α
deriving DecidableEq

/-- Whether an `Outcome` is a returned `Ok`. -/
def Outcome.isOk {α : Type} : Outcome α → Bool
  | .ok _ => true
  | _ => false

/-- Little-endian interpretation of a list of bytes as an unsigned integer. -/
def leBytes (bs : List Nat) : Nat :=
  bs.foldr (fun b acc => b + 256 * acc) 0

-- ----------------------------------------------------------------------
-- Primitive bit reader (util::bit_util::BitReader)

/-- Modelled from the spec: the primitive bit reader of §4.4 backing every
sub-byte decoder (`util::bit_util::BitReader`, not part of the sources under
verification). Holds the byte buffer and a cursor in bits. -/
structure BitReader where
  data : List Nat
  bitOffset : Nat
deriving DecidableEq

/-- A fresh bit reader over `data`, positioned at bit 0. -/
def BitReader.new (data : List Nat) : BitReader := ⟨data, 0⟩

/-- Read `w` bits starting at absolute bit position `pos`, LSB-first within
each byte, assembling them into an unsigned integer (bit `i` of the result
is the bit at position `pos + i`). -/
def readBitsAux (data : List Nat) (pos : Nat) : Nat → Nat
  | 0 => 0
  | w + 1 => ((data.getD (pos / 8) 0) >>> (pos % 8)) % 2
      + 2 * readBitsAux data (pos + 1) w

/-- Modelled from the spec: `get_value(bit_width)` of §4.4 — read an
unsigned integer of `w` bits, LSB-first within each byte, advancing the
cursor; error when the stream has fewer than `w` bits left. -/
def BitReader.getValue (r : BitReader) (w : Nat) : Outcome (Nat × BitReader) :=
  if r.bitOffset + w > 8 * r.data.length then .error
  else .ok (readBitsAux r.data r.bitOffset w, ⟨r.data, r.bitOffset + w⟩)

/-- Modelled from the spec: `get_aligned(byte_count)` of §4.4 — discard bits
to the next byte boundary, then read `n` little-endian bytes. -/
def BitReader.getAligned (r : BitReader) (n : Nat) : Outcome (Nat × BitReader) :=
  let byteOff := (r.bitOffset + 7) / 8
  if byteOff + n > r.data.length then .error
  else .ok (leBytes ((r.data.drop byteOff).take n), ⟨r.data, 8 * (byteOff + n)⟩)

/-- One step per byte of a LEB128 variable-length integer read: `idx` is the
current byte index, `shift` the bit position of the next 7-bit group, `acc`
the value so far; `fuel` bounds the number of bytes consumed. Returns the
value and the index one past the last byte consumed. -/
def vlqAux (data : List Nat) : Nat → Nat → Nat → Nat → Outcome (Nat × Nat)
  | 0, _, _, _ => .error
  | fuel + 1, idx, shift, acc =>
    if idx < data.length then
      let b := data.getD idx 0
      let acc2 := acc + (b % 128) * 2 ^ shift
      if b < 128 then .ok (acc2, idx + 1)
      else vlqAux data fuel (idx + 1) (shift + 7) acc2
    else .error

/-- Modelled from the spec: `get_vlq_int()` of §4.4 — byte-aligned first,
then a LEB128 unsigned integer, 7 bits per byte, MSB as continuation. -/
def BitReader.getVlqInt (r : BitReader) : Outcome (Nat × BitReader) :=
  let byteOff := (r.bitOffset + 7) / 8
  match vlqAux r.data (r.data.length + 1 - byteOff) byteOff 0 0 with
  | .ok (v, idx2) => .ok (v, ⟨r.data, 8 * idx2⟩)
  | .error => .error
  | .panic => .panic

/-- ZigZag decoding of an unsigned integer: `(n >> 1) ^ -(n & 1)`. -/
def zigzagDecode (n : Nat) : Int :=
  if n % 2 = 0 then (n / 2 : Nat) else -((n / 2 : Nat) + 1)

/-- Modelled from the spec: `get_zigzag_vlq_int()` of §4.4 — a VLQ integer
followed by ZigZag decoding. -/
def BitReader.getZigzagVlqInt (r : BitReader) : Outcome (Int × BitReader) :=
  match r.getVlqInt with
  | .ok (v, r2) => .ok (zigzagDecode v, r2)
  | .error => .error
  | .panic => .panic

/-- Modelled from the spec: `get_byte_offset()` of §4.4 — the current
position in bytes, rounded up when mid-byte. -/
def BitReader.getByteOffset (r : BitReader) : Nat :=
  (r.bitOffset + 7) / 8

-- ----------------------------------------------------------------------
-- Raw RLE/bit-packed decoder (rle_encoding::RawRleDecoder)

/-- Modelled from the spec: the raw RLE/bit-packed hybrid inner decoder of
§4.5 (`rle_encoding::RawRleDecoder`, not part of the sources under
verification). `rleCount`/`rleValue` describe the rest of a current RLE run,
`packedCount` the values left in a current bit-packed run. -/
structure RawRleDecoder where
  bitWidth : Nat
  reader : BitReader
  rleCount : Nat
  rleValue : Nat
  packedCount : Nat
deriving DecidableEq

/-- A raw RLE decoder for values of width `bw` bits, with no data yet. -/
def RawRleDecoder.new (bw : Nat) : RawRleDecoder :=
  ⟨bw, BitReader.new [], 0, 0, 0⟩

/-- Modelled from the spec: bind a byte stream to the raw RLE decoder,
resetting any current run. -/
def RawRleDecoder.setRleData (d : RawRleDecoder) (data : List Nat) : RawRleDecoder :=
  { d with reader := BitReader.new data, rleCount := 0, rleValue := 0, packedCount := 0 }

/-- Modelled from the spec: pull the next value from the hybrid stream of
§4.5. A VLQ header `h` announces an RLE run of `h >>> 1` copies of the next
`ceil(bitWidth / 8)` byte-aligned little-endian bytes when `h` is even, and
a bit-packed run of `(h >>> 1) * 8` values at `bitWidth` bits each when `h`
is odd. Returns `none` when the stream is exhausted at a run boundary;
`fuel` bounds the number of run headers consumed. -/
def rawRleNext : Nat → RawRleDecoder → Outcome (Option (Nat × RawRleDecoder))
  | 0, _ => .error
  | fuel + 1, d =>
    if d.rleCount ≠ 0 then
      .ok (some (d.rleValue, { d with rleCount := d.rleCount - 1 }))
    else if d.packedCount ≠ 0 then
      match d.reader.getValue d.bitWidth with
      | .ok (v, r) => .ok (some (v, { d with packedCount := d.packedCount - 1, reader := r }))
      | .error => .error
      | .panic => .panic
    else
      match d.reader.getVlqInt with
      | .error => .ok none
      | .panic => .panic
      | .ok (header, r) =>
        if header % 2 = 0 then
          match r.getAligned ((d.bitWidth + 7) / 8) with
          | .ok (v, r2) =>
            rawRleNext fuel { d with reader := r2, rleCount := header / 2, rleValue := v }
          | .error => .error
          | .panic => .panic
        else
          rawRleNext fuel { d with reader := r, packedCount := (header / 2) * 8 }

/-- The shared decoding loop of the raw RLE decoder: write up to `k` more
values into `buffer` starting at index `i`, converting each raw unsigned
value through `conv` (`ok` identity for `decode`, dictionary lookup for
`decode_with_dict`). Returns the total number of values written. -/
def rawRleLoop {α : Type} (conv : Nat → Outcome α) (i : Nat) :
    Nat → RawRleDecoder → List α → Outcome Nat × RawRleDecoder × List α
  | 0, d, buf => (.ok i, d, buf)
  | k + 1, d, buf =>
    match rawRleNext (d.reader.data.length + 1) d with
    | .ok none => (.ok i, d, buf)
    | .ok (some (v, d2)) =>
      match conv v with
      | .ok a => rawRleLoop conv (i + 1) k d2 (buf.set i a)
      | .error => (.error, d2, buf)
      | .panic => (.panic, d2, buf)
    | .error => (.error, d, buf)
    | .panic => (.panic, d, buf)

/-- Modelled from the spec: `decode(out[], max)` of §4.5 — materialize up to
`maxValues` unsigned integer values. -/
def rawRleDecode (d : RawRleDecoder) (buffer : List Nat) (maxValues : Nat) :
    Outcome Nat × RawRleDecoder × List Nat :=
  if buffer.length < maxValues then (.panic, d, buffer)
  else rawRleLoop (fun v => .ok v) 0 maxValues d buffer

/-- Modelled from the spec: `decode_with_dict(dict[], out[], max)` of §4.5 —
each decoded index `i` produces `dict[i]`; an index out of range is a
decoder error. -/
def rawRleDecodeWithDict {α : Type} (dict : List α) (d : RawRleDecoder)
    (buffer : List α) (maxValues : Nat) : Outcome Nat × RawRleDecoder × List α :=
  if buffer.length < maxValues then (.panic, d, buffer)
  else
    rawRleLoop (fun v => match dict.get? v with | some a => .ok a | none => .error)
      0 maxValues d buffer

-- ----------------------------------------------------------------------
-- PLAIN decoding (PlainDecoder<T>)

/-- The state of `PlainDecoder<T>`: remaining value count, byte cursor
`start`, the `type_length` used by the `FIXED_LEN_BYTE_ARRAY`
specialization, the input bytes (absent for booleans), and the bit reader
(present only for booleans). -/
structure PlainDecoder where
  numValues : Nat
  start : Nat
  typeLength : Int
  data : Option (List Nat)
  bitReader : Option BitReader
deriving DecidableEq

/-- `PlainDecoder::new(type_length)`. -/
def PlainDecoder.new (typeLength : Int) : PlainDecoder :=
  ⟨0, 0, typeLength, none, none⟩

/-- The default `PlainDecoder::set_data`: store the bytes, reset the cursor,
record the declared value count. -/
def plainSetData (s : PlainDecoder) (data : List Nat) (numValues : Nat) :
    Outcome PlainDecoder :=
  .ok { s with numValues := numValues, start := 0, data := some data }

/-- `PlainDecoder::set_data` for `BoolType`: install a bit reader over the
bytes and record the declared value count. -/
def plainSetDataBool (s : PlainDecoder) (data : List Nat) (numValues : Nat) :
    Outcome PlainDecoder :=
  .ok { s with numValues := numValues, bitReader := some (BitReader.new data) }

/-- `PlainDecoder::values_left`. -/
def PlainDecoder.valuesLeft (s : PlainDecoder) : Nat := s.numValues

/-- The raw byte copy at the heart of the default `PlainDecoder::decode`:
value `i + j` of the buffer becomes the little-endian interpretation of the
`typeSize` bytes at cursor `start + j * typeSize`, for `j < k`. -/
def plainFixedWrite (typeSize : Nat) (data : List Nat) (start i : Nat) :
    Nat → List Nat → List Nat
  | 0, buf => buf
  | k + 1, buf =>
    plainFixedWrite typeSize data (start + typeSize) (i + 1) k
      (buf.set i (leBytes ((data.drop start).take typeSize)))

/-- The default `PlainDecoder::decode` (fixed-width numeric types, with
`typeSize` standing for `size_of::<T::T>()`): check that
`size_of * min(max, values_left)` bytes remain before writing anything,
then copy them into the buffer and advance. -/
def plainDecodeFixed (typeSize : Nat) (s : PlainDecoder) (buffer : List Nat)
    (maxValues : Nat) : Outcome Nat × PlainDecoder × List Nat :=
  if buffer.length < maxValues then (.panic, s, buffer)
  else match s.data with
  | none => (.panic, s, buffer)
  | some data =>
    if data.length < s.start then (.panic, s, buffer)
    else
      let n := min maxValues s.numValues
      let bytesToDecode := typeSize * n
      if data.length - s.start < bytesToDecode then (.error, s, buffer)
      else
        (.ok n,
         { s with start := s.start + bytesToDecode, numValues := s.numValues - n },
         plainFixedWrite typeSize data s.start 0 n buffer)

/-- The loop of `PlainDecoder::decode` for `BoolType`: one bit per value. -/
def plainBoolLoop (i : Nat) :
    Nat → BitReader → List Bool → Outcome Unit × BitReader × List Bool
  | 0, r, buf => (.ok (), r, buf)
  | k + 1, r, buf =>
    match r.getValue 1 with
    | .ok (v, r2) => plainBoolLoop (i + 1) k r2 (buf.set i (v != 0))
    | .error => (.error, r, buf)
    | .panic => (.panic, r, buf)

/-- `PlainDecoder::decode` for `BoolType`. -/
def plainDecodeBool (s : PlainDecoder) (buffer : List Bool) (maxValues : Nat) :
    Outcome Nat × PlainDecoder × List Bool :=
  if buffer.length < maxValues then (.panic, s, buffer)
  else match s.bitReader with
  | none => (.panic, s, buffer)
  | some r =>
    let n := min maxValues s.numValues
    match plainBoolLoop 0 n r buffer with
    | (.ok _, r2, buf2) =>
      (.ok n, { s with bitReader := some r2, numValues := s.numValues - n }, buf2)
    | (.error, r2, buf2) => (.error, { s with bitReader := some r2 }, buf2)
    | (.panic, r2, buf2) => (.panic, { s with bitReader := some r2 }, buf2)

/-- The loop of `PlainDecoder::decode` for `ByteArrayType`: per value, a
4-byte little-endian length then that many bytes; the cursor advances past
the length before the truncation check, and the decoded value references
the byte range. Returns the outcome, final cursor, and buffer. -/
def plainByteArrayLoop (data : List Nat) (i : Nat) :
    Nat → Nat → List (List Nat) → Outcome Unit × Nat × List (List Nat)
  | 0, start, buf => (.ok (), start, buf)
  | k + 1, start, buf =>
    if data.length < start + 4 then (.panic, start, buf)
    else
      let len := leBytes ((data.drop start).take 4)
      let start2 := start + 4
      if data.length < start2 + len then (.error, start2, buf)
      else
        plainByteArrayLoop data (i + 1) k (start2 + len)
          (buf.set i ((data.drop start2).take len))

/-- `PlainDecoder::decode` for `ByteArrayType`. -/
def plainDecodeByteArray (s : PlainDecoder) (buffer : List (List Nat))
    (maxValues : Nat) : Outcome Nat × PlainDecoder × List (List Nat) :=
  if buffer.length < maxValues then (.panic, s, buffer)
  else match s.data with
  | none => (.panic, s, buffer)
  | some data =>
    let n := min maxValues s.numValues
    match plainByteArrayLoop data 0 n s.start buffer with
    | (.ok _, start2, buf2) =>
      (.ok n, { s with start := start2, numValues := s.numValues - n }, buf2)
    | (.error, start2, buf2) => (.error, { s with start := start2 }, buf2)
    | (.panic, start2, buf2) => (.panic, { s with start := start2 }, buf2)

/-- The loop of `PlainDecoder::decode` for `FixedLenByteArrayType`: each
value is `typeLen` bytes, checked per value. -/
def plainFlbaLoop (data : List Nat) (typeLen : Nat) (i : Nat) :
    Nat → Nat → List (List Nat) → Outcome Unit × Nat × List (List Nat)
  | 0, start, buf => (.ok (), start, buf)
  | k + 1, start, buf =>
    if data.length < start + typeLen then (.error, start, buf)
    else
      plainFlbaLoop data typeLen (i + 1) k (start + typeLen)
        (buf.set i ((data.drop start).take typeLen))

/-- `PlainDecoder::decode` for `FixedLenByteArrayType`: asserts
`type_length > 0`, then reads `type_length` bytes per value. -/
def plainDecodeFlba (s : PlainDecoder) (buffer : List (List Nat))
    (maxValues : Nat) : Outcome Nat × PlainDecoder × List (List Nat) :=
  if buffer.length < maxValues then (.panic, s, buffer)
  else match s.data with
  | none => (.panic, s, buffer)
  | some data =>
    if s.typeLength ≤ 0 then (.panic, s, buffer)
    else
      let typeLen := s.typeLength.toNat
      let n := min maxValues s.numValues
      match plainFlbaLoop data typeLen 0 n s.start buffer with
      | (.ok _, start2, buf2) =>
        (.ok n, { s with start := start2, numValues := s.numValues - n }, buf2)
      | (.error, start2, buf2) => (.error, { s with start := start2 }, buf2)
      | (.panic, start2, buf2) => (.panic, { s with start := start2 }, buf2)

/-- The write loop of `PlainDecoder::decode` for `Int96Type`: each value is
twelve bytes, surfaced as three little-endian 32-bit words. -/
def plainInt96Write (data : List Nat) (start i : Nat) :
    Nat → List (List Nat) → List (List Nat)
  | 0, buf => buf
  | k + 1, buf =>
    plainInt96Write data (start + 12) (i + 1) k
      (buf.set i [leBytes ((data.drop start).take 4),
                  leBytes ((data.drop (start + 4)).take 4),
                  leBytes ((data.drop (start + 8)).take 4)])

/-- `PlainDecoder::decode` for `Int96Type`: check that `12 * min(max,
values_left)` bytes remain, then read the triples. -/
def plainDecodeInt96 (s : PlainDecoder) (buffer : List (List Nat))
    (maxValues : Nat) : Outcome Nat × PlainDecoder × List (List Nat) :=
  if buffer.length < maxValues then (.panic, s, buffer)
  else match s.data with
  | none => (.panic, s, buffer)
  | some data =>
    if data.length < s.start then (.panic, s, buffer)
    else
      let n := min maxValues s.numValues
      let bytesToDecode := 12 * n
      if data.length - s.start < bytesToDecode then (.error, s, buffer)
      else
        (.ok n,
         { s with start := s.start + bytesToDecode, numValues := s.numValues - n },
         plainInt96Write data s.start 0 n buffer)

-- ----------------------------------------------------------------------
-- PLAIN_DICTIONARY decoding (DictDecoder<T>)

/-- The state of `DictDecoder<T>`: the dictionary mapping ids to values, the
`has_dictionary` flag, the inner raw RLE decoder for the value ids, and the
remaining value count. -/
structure DictDecoder (α : Type) where
  dictionary : List α
  hasDictionary : Bool
  rleDecoder : Option RawRleDecoder
  numValues : Nat
deriving DecidableEq

/-- `DictDecoder::new`. -/
def DictDecoder.new {α : Type} : DictDecoder α := ⟨[], false, none, 0⟩

/-- `DictDecoder::set_dict`: install the dictionary. The source drains a
supplied boxed decoder into the `dictionary` vector; the already-decoded
values are passed here directly. -/
def DictDecoder.setDict {α : Type} (s : DictDecoder α) (dict : List α) :
    DictDecoder α :=
  { s with dictionary := dict, hasDictionary := true }

/-- `DictDecoder::set_data`: the first byte of the page is the index bit
width (indexing an empty slice panics), the tail is handed to a fresh raw
RLE decoder at that width; the declared `num_values` is recorded. No
validation of the bit-width byte is performed. -/
def DictDecoder.setData {α : Type} (s : DictDecoder α) (data : List Nat)
    (numValues : Nat) : Outcome (DictDecoder α) :=
  match data with
  | [] => .panic
  | b :: rest =>
    .ok { s with
          numValues := numValues,
          rleDecoder := some ((RawRleDecoder.new b).setRleData rest) }

/-- `DictDecoder::decode`: assert the buffer bound, the inner decoder and
the dictionary, then delegate `min(max, num_values)` values to
`decode_with_dict`. The remaining value count is not decremented. -/
def DictDecoder.decode {α : Type} (s : DictDecoder α) (buffer : List α)
    (maxValues : Nat) : Outcome Nat × DictDecoder α × List α :=
  if buffer.length < maxValues then (.panic, s, buffer)
  else match s.rleDecoder with
  | none => (.panic, s, buffer)
  | some rle =>
    if s.hasDictionary = false then (.panic, s, buffer)
    else
      let n := min maxValues s.numValues
      match rawRleDecodeWithDict s.dictionary rle buffer n with
      | (res, rle2, buf2) => (res, { s with rleDecoder := some rle2 }, buf2)

/-- `DictDecoder::values_left`. -/
def DictDecoder.valuesLeft {α : Type} (s : DictDecoder α) : Nat := s.numValues

-- ----------------------------------------------------------------------
-- RLE decoding (RleDecoder<T>, Int32 specialization)

/-- The state of the public `RleDecoder<T>`: the configured bit width, the
wrapped raw RLE decoder, the remaining value count, and the recorded
total byte length of the page. -/
structure RleDecoder where
  bitWidth : Nat
  decoder : RawRleDecoder
  numValues : Nat
  totalBytes : Nat
deriving DecidableEq

/-- `RleDecoder::new(bit_width)`. -/
def RleDecoder.new (bw : Nat) : RleDecoder :=
  ⟨bw, RawRleDecoder.new bw, 0, 0⟩

/-- `RleDecoder::set_data` for `Int32Type`: read the leading 4 bytes as a
little-endian `i32` (panicking when fewer than 4 bytes are present), cast
it to `usize` (sign-extending a negative value), delegate the bytes from
offset 4 onward to the raw RLE decoder, and record
`total_bytes = 4 + num_bytes` (panicking on `usize` overflow). -/
def RleDecoder.setData (s : RleDecoder) (data : List Nat) (numValues : Nat) :
    Outcome RleDecoder :=
  if data.length < 4 then .panic
  else
    let raw := leBytes (data.take 4)
    let signed : Int := if raw < 2 ^ 31 then (raw : Int) else (raw : Int) - 2 ^ 32
    let numBytes : Nat := (signed % (2 ^ 64 : Int)).toNat
    if 2 ^ 64 ≤ 4 + numBytes then .panic
    else
      .ok { s with
            decoder := s.decoder.setRleData (data.drop 4),
            numValues := numValues, totalBytes := 4 + numBytes }

/-- `RleDecoder::total_bytes` for `Int32Type`: `Ok(self.total_bytes)`. -/
def RleDecoder.totalBytesResult (s : RleDecoder) : Outcome Nat :=
  .ok s.totalBytes

/-- `RleDecoder::decode` for `Int32Type`: delegate to the raw decoder with
the caller's `max_values` (not capped at the remaining count), then
subtract the values read from `num_values` (panicking on `usize`
underflow). -/
def RleDecoder.decode (s : RleDecoder) (buffer : List Nat) (maxValues : Nat) :
    Outcome Nat × RleDecoder × List Nat :=
  match rawRleDecode s.decoder buffer maxValues with
  | (.ok k, d2, buf2) =>
    if s.numValues < k then (.panic, { s with decoder := d2 }, buf2)
    else (.ok k, { s with decoder := d2, numValues := s.numValues - k }, buf2)
  | (.error, d2, buf2) => (.error, { s with decoder := d2 }, buf2)
  | (.panic, d2, buf2) => (.panic, { s with decoder := d2 }, buf2)

/-- `RleDecoder::values_left`. -/
def RleDecoder.valuesLeft (s : RleDecoder) : Nat := s.numValues

-- ----------------------------------------------------------------------
-- DELTA_BINARY_PACKED decoding (DeltaBitPackDecoder, Int64 specialization)

/-- The state of `DeltaBitPackDecoder`: the bit reader over the page, the
header-derived counts, the per-block `min_delta` and mini-block widths, and
the running sum `current_value`. -/
structure DeltaBitPackDecoder where
  bitReader : Option BitReader
  numValues : Nat
  numMiniBlocks : Nat
  valuesPerMiniBlock : Nat
  valuesCurrentMiniBlock : Int
  firstValue : Int
  firstValueRead : Bool
  minDelta : Int
  miniBlockIdx : Nat
  deltaBitWidth : Nat
  deltaBitWidths : List Nat
  currentValue : Int
deriving DecidableEq

/-- `DeltaBitPackDecoder::new`. -/
def DeltaBitPackDecoder.new : DeltaBitPackDecoder :=
  ⟨none, 0, 0, 0, 0, 0, false, 0, 0, 0, [], 0⟩

/-- `DeltaBitPackDecoder::set_data` for `Int64Type`: parse
`<block_size> <num_mini_blocks> <total_value_count> <first_value>` from the
stream head; the `num_values` argument is ignored. Computing
`block_size / num_mini_blocks` panics when `num_mini_blocks` is zero, and
`assert!(values_per_mini_block % 8 == 0)` panics on a bad ratio. -/
def DeltaBitPackDecoder.setData (s : DeltaBitPackDecoder) (data : List Nat)
    (_numValuesArg : Nat) : Outcome DeltaBitPackDecoder :=
  match (BitReader.new data).getVlqInt with
  | .ok (blockSize, r1) =>
    match r1.getVlqInt with
    | .ok (numMiniBlocks, r2) =>
      match r2.getVlqInt with
      | .ok (numValues, r3) =>
        match r3.getZigzagVlqInt with
        | .ok (firstValue, r4) =>
          if numMiniBlocks = 0 then .panic
          else if (blockSize / numMiniBlocks) % 8 ≠ 0 then .panic
          else
            .ok { s with
                  bitReader := some r4,
                  numValues := numValues,
                  numMiniBlocks := numMiniBlocks,
                  valuesPerMiniBlock := blockSize / numMiniBlocks,
                  firstValue := firstValue,
                  firstValueRead := false }
        | .error => .error
        | .panic => .panic
      | .error => .error
      | .panic => .panic
    | .error => .error
    | .panic => .panic
  | .error => .error
  | .panic => .panic

/-- `DeltaBitPackDecoder::get_offset`: the bit reader's rounded-up byte
offset (asserting the reader is present). -/
def DeltaBitPackDecoder.getOffset (s : DeltaBitPackDecoder) : Outcome Nat :=
  match s.bitReader with
  | none => .panic
  | some r => .ok r.getByteOffset

/-- Read `num_mini_blocks` single-byte bit widths. -/
def readWidths (r : BitReader) : Nat → Outcome (List Nat × BitReader)
  | 0 => .ok ([], r)
  | k + 1 =>
    match r.getAligned 1 with
    | .ok (w, r2) =>
      match readWidths r2 k with
      | .ok (ws, r3) => .ok (w :: ws, r3)
      | .error => .error
      | .panic => .panic
    | .error => .error
    | .panic => .panic

/-- `DeltaBitPackDecoder::init_block`: read the next block's `min_delta`
and mini-block widths, reset the mini-block index and count, and set
`current_value = first_value` again (the source carries a
`TODO: double check this` on that line). The active `delta_bit_width` is
not updated here. -/
def DeltaBitPackDecoder.initBlock (s : DeltaBitPackDecoder) :
    Outcome DeltaBitPackDecoder :=
  match s.bitReader with
  | none => .panic
  | some r =>
    match r.getZigzagVlqInt with
    | .ok (minDelta, r1) =>
      match readWidths r1 s.numMiniBlocks with
      | .ok (widths, r2) =>
        .ok { s with
              bitReader := some r2, minDelta := minDelta,
              deltaBitWidths := widths, miniBlockIdx := 0,
              valuesCurrentMiniBlock := (s.valuesPerMiniBlock : Int),
              currentValue := s.firstValue }
      | .error => .error
      | .panic => .panic
    | .error => .error
    | .panic => .panic

/-- The mini-block bookkeeping at the head of each non-first value in
`DeltaBitPackDecoder::decode`: when the current mini-block is exhausted,
advance to the next width within the block, or read the next block header
via `init_block`. -/
def deltaAdvanceBlock (s : DeltaBitPackDecoder) : Outcome DeltaBitPackDecoder :=
  let idx := s.miniBlockIdx + 1
  if idx < s.deltaBitWidths.length then
    .ok { s with
          miniBlockIdx := idx,
          deltaBitWidth := s.deltaBitWidths.getD idx 0,
          valuesCurrentMiniBlock := (s.valuesPerMiniBlock : Int) }
  else
    DeltaBitPackDecoder.initBlock { s with miniBlockIdx := idx }

/-- One non-first value of `DeltaBitPackDecoder::decode`: run the
mini-block bookkeeping when the current mini-block count is zero, read an
unpacked delta at the active `delta_bit_width`, and advance the running sum
by `min_delta + delta`. -/
def deltaNextValue (s : DeltaBitPackDecoder) : Outcome (Int × DeltaBitPackDecoder) :=
  match (if s.valuesCurrentMiniBlock = 0 then deltaAdvanceBlock s else .ok s) with
  | .ok s1 =>
    match s1.bitReader with
    | none => .panic
    | some r =>
      match r.getValue s1.deltaBitWidth with
      | .ok (delta, r2) =>
        let cur := s1.currentValue + s1.minDelta + (delta : Int)
        .ok (cur, { s1 with
              bitReader := some r2, currentValue := cur,
              valuesCurrentMiniBlock := s1.valuesCurrentMiniBlock - 1 })
      | .error => .error
      | .panic => .panic
  | .error => .error
  | .panic => .panic

/-- The loop of `DeltaBitPackDecoder::decode`: the first value of the
stream is `first_value` verbatim (emitted once, guarded by
`first_value_read`); every later value comes from `deltaNextValue`. -/
def deltaDecodeLoop (i : Nat) :
    Nat → DeltaBitPackDecoder → List Int → Outcome Unit × DeltaBitPackDecoder × List Int
  | 0, s, buf => (.ok (), s, buf)
  | k + 1, s, buf =>
    if s.firstValueRead = false then
      deltaDecodeLoop (i + 1) k { s with firstValueRead := true }
        (buf.set i s.firstValue)
    else
      match deltaNextValue s with
      | .ok (v, s1) => deltaDecodeLoop (i + 1) k s1 (buf.set i v)
      | .error => (.error, s, buf)
      | .panic => (.panic, s, buf)

/-- `DeltaBitPackDecoder::decode` for `Int64Type`. -/
def DeltaBitPackDecoder.decode (s : DeltaBitPackDecoder) (buffer : List Int)
    (maxValues : Nat) : Outcome Nat × DeltaBitPackDecoder × List Int :=
  if buffer.length < maxValues then (.panic, s, buffer)
  else match s.bitReader with
  | none => (.panic, s, buffer)
  | some _ =>
    let n := min maxValues s.numValues
    match deltaDecodeLoop 0 n s buffer with
    | (.ok _, s2, buf2) => (.ok n, { s2 with numValues := s2.numValues - n }, buf2)
    | (.error, s2, buf2) => (.error, s2, buf2)
    | (.panic, s2, buf2) => (.panic, s2, buf2)

/-- `DeltaBitPackDecoder::values_left`. -/
def DeltaBitPackDecoder.valuesLeft (s : DeltaBitPackDecoder) : Nat := s.numValues

-- ----------------------------------------------------------------------
-- DELTA_LENGTH_BYTE_ARRAY decoding (DeltaLengthByteArrayDecoder)

/-- The state of `DeltaLengthByteArrayDecoder`: the decoded length vector,
the current index into it, the concatenated data region, the byte offset of
the next value, and the remaining value count. -/
structure DeltaLengthByteArrayDecoder where
  lengths : List Int
  currentIdx : Nat
  data : Option (List Nat)
  offset : Nat
  numValues : Nat
deriving DecidableEq

/-- `DeltaLengthByteArrayDecoder::new`. -/
def DeltaLengthByteArrayDecoder.new : DeltaLengthByteArrayDecoder :=
  ⟨[], 0, none, 0, 0⟩

/-- `DeltaLengthByteArrayDecoder::set_data` for `ByteArrayType`: run an
inner `DeltaBitPackDecoder` over the page to drain all lengths, then record
the remainder of the page — from the inner decoder's rounded-up byte
offset — as the concatenated data region. -/
def DeltaLengthByteArrayDecoder.setData (s : DeltaLengthByteArrayDecoder)
    (data : List Nat) (numValues : Nat) : Outcome DeltaLengthByteArrayDecoder :=
  match DeltaBitPackDecoder.new.setData data numValues with
  | .ok lenDecoder =>
    let numLengths := lenDecoder.numValues
    match lenDecoder.decode (List.replicate numLengths 0) numLengths with
    | (.ok _, lenDecoder2, lengths) =>
      match lenDecoder2.getOffset with
      | .ok off =>
        .ok { s with
              lengths := lengths, currentIdx := 0,
              data := some (data.drop off), offset := 0,
              numValues := numLengths }
      | .error => .error
      | .panic => .panic
    | (.error, _, _) => .error
    | (.panic, _, _) => .panic
  | .error => .error
  | .panic => .panic

/-- The loop of `DeltaLengthByteArrayDecoder::decode`: value `i` is the
sub-range `[offset, offset + lengths[current_idx])` of the data region;
indexing `lengths` out of bounds, a negative length cast to `usize`, or a
range beyond the data region panic. Returns the outcome, the final
`current_idx` and `offset`, and the buffer. -/
def dlbaLoop (lengths : List Int) (dataBytes : List Nat) (i : Nat) :
    Nat → Nat → Nat → List (List Nat) → Outcome Unit × Nat × Nat × List (List Nat)
  | 0, idx, off, buf => (.ok (), idx, off, buf)
  | k + 1, idx, off, buf =>
    match lengths.get? idx with
    | none => (.panic, idx, off, buf)
    | some lenI =>
      if lenI < 0 then (.panic, idx, off, buf)
      else
        let len := lenI.toNat
        if dataBytes.length < off + len then (.panic, idx, off, buf)
        else
          dlbaLoop lengths dataBytes (i + 1) k (idx + 1) (off + len)
            (buf.set i ((dataBytes.drop off).take len))

/-- `DeltaLengthByteArrayDecoder::decode` for `ByteArrayType`. -/
def DeltaLengthByteArrayDecoder.decode (s : DeltaLengthByteArrayDecoder)
    (buffer : List (List Nat)) (maxValues : Nat) :
    Outcome Nat × DeltaLengthByteArrayDecoder × List (List Nat) :=
  match s.data with
  | none => (.panic, s, buffer)
  | some dataBytes =>
    if buffer.length < maxValues then (.panic, s, buffer)
    else
      let n := min s.numValues maxValues
      match dlbaLoop s.lengths dataBytes 0 n s.currentIdx s.offset buffer with
      | (.ok _, idx2, off2, buf2) =>
        (.ok n,
         { s with currentIdx := idx2, offset := off2, numValues := s.numValues - n },
         buf2)
      | (.error, idx2, off2, buf2) =>
        (.error, { s with currentIdx := idx2, offset := off2 }, buf2)
      | (.panic, idx2, off2, buf2) =>
        (.panic, { s with currentIdx := idx2, offset := off2 }, buf2)

/-- `DeltaLengthByteArrayDecoder::values_left`. -/
def DeltaLengthByteArrayDecoder.valuesLeft (s : DeltaLengthByteArrayDecoder) : Nat :=
  s.numValues

-- ----------------------------------------------------------------------
-- DELTA_BYTE_ARRAY decoding (DeltaByteArrayDecoder)

/-- The state of `DeltaByteArrayDecoder`: the decoded prefix-length vector,
the current index into it, the inner suffix decoder, the last produced
value, and the remaining value count. -/
structure DeltaByteArrayDecoder where
  prefixLengths : List Int
  currentIdx : Nat
  suffixDecoder : Option DeltaLengthByteArrayDecoder
  previousValue : Option (List Nat)
  numValues : Nat
deriving DecidableEq

/-- `DeltaByteArrayDecoder::new`. -/
def DeltaByteArrayDecoder.new : DeltaByteArrayDecoder :=
  ⟨[], 0, none, none, 0⟩

/-- `DeltaByteArrayDecoder::set_data` for `ByteArrayType`: drain all prefix
lengths through an inner `DeltaBitPackDecoder`, then construct the inner
`DeltaLengthByteArrayDecoder` on the bytes following the prefix-length
stream. Neither `current_idx` nor `previous_value` is reset. -/
def DeltaByteArrayDecoder.setData (s : DeltaByteArrayDecoder) (data : List Nat)
    (numValues : Nat) : Outcome DeltaByteArrayDecoder :=
  match DeltaBitPackDecoder.new.setData data numValues with
  | .ok prefixLenDecoder =>
    let numPrefixes := prefixLenDecoder.numValues
    match prefixLenDecoder.decode (List.replicate numPrefixes 0) numPrefixes with
    | (.ok _, prefixLenDecoder2, prefixLengths) =>
      match prefixLenDecoder2.getOffset with
      | .ok off =>
        match DeltaLengthByteArrayDecoder.new.setData (data.drop off) numValues with
        | .ok suffixDecoder =>
          .ok { s with
                prefixLengths := prefixLengths,
                suffixDecoder := some suffixDecoder,
                numValues := numPrefixes }
        | .error => .error
        | .panic => .panic
      | .error => .error
      | .panic => .panic
    | (.error, _, _) => .error
    | (.panic, _, _) => .panic
  | .error => .error
  | .panic => .panic

/-- The loop of `DeltaByteArrayDecoder::decode`: per value, look up
`prefix_lengths[current_idx]` (panicking out of bounds); when that length
is non-zero the whole previous value is taken as the prefix slice
(asserting that a previous value exists); one suffix is pulled from the
inner decoder; prefix and suffix are concatenated into the produced value,
which also becomes the new previous value. `current_idx` is never
advanced. -/
def dbaLoop (i : Nat) :
    Nat → DeltaByteArrayDecoder → List (List Nat) →
    Outcome Unit × DeltaByteArrayDecoder × List (List Nat)
  | 0, s, buf => (.ok (), s, buf)
  | k + 1, s, buf =>
    match s.prefixLengths.get? s.currentIdx with
    | none => (.panic, s, buf)
    | some prefixLen =>
      match (if prefixLen ≠ 0 then
               match s.previousValue with
               | none => Outcome.panic
               | some prev => Outcome.ok (some prev)
             else Outcome.ok none) with
      | .ok prefixSlice =>
        match s.suffixDecoder with
        | none => (.panic, s, buf)
        | some suffixDecoder =>
          match suffixDecoder.decode [[]] 1 with
          | (.ok _, suffixDecoder2, suffixBuf) =>
            let suffix0 := suffixBuf.getD 0 []
            let result := match prefixSlice with
              | some p => p ++ suffix0
              | none => suffix0
            dbaLoop (i + 1) k
              { s with
                suffixDecoder := some suffixDecoder2,
                previousValue := some result }
              (buf.set i result)
          | (.error, suffixDecoder2, _) =>
            (.error, { s with suffixDecoder := some suffixDecoder2 }, buf)
          | (.panic, suffixDecoder2, _) =>
            (.panic, { s with suffixDecoder := some suffixDecoder2 }, buf)
      | .error => (.error, s, buf)
      | .panic => (.panic, s, buf)

/-- `DeltaByteArrayDecoder::decode` for `ByteArrayType`. -/
def DeltaByteArrayDecoder.decode (s : DeltaByteArrayDecoder)
    (buffer : List (List Nat)) (maxValues : Nat) :
    Outcome Nat × DeltaByteArrayDecoder × List (List Nat) :=
  if buffer.length < maxValues then (.panic, s, buffer)
  else if s.suffixDecoder.isNone then (.panic, s, buffer)
  else
    let n := min s.numValues maxValues
    match dbaLoop 0 n s buffer with
    | (.ok _, s2, buf2) => (.ok n, { s2 with numValues := s2.numValues - n }, buf2)
    | (.error, s2, buf2) => (.error, s2, buf2)
    | (.panic, s2, buf2) => (.panic, s2, buf2)

/-- `DeltaByteArrayDecoder::values_left`. -/
def DeltaByteArrayDecoder.valuesLeft (s : DeltaByteArrayDecoder) : Nat :=
  s.numValues

/-- Spec-side reading of the DELTA_BINARY_PACKED header of §4.7: the
`total_value_count` field is the third VLQ integer of the stream. -/
def deltaHeaderValueCount (data : List Nat) : Outcome Nat :=
  match (BitReader.new data).getVlqInt with
  | .ok (_, r1) =>
    match r1.getVlqInt with
    | .ok (_, r2) =>
      match r2.getVlqInt with
      | .ok (nv, _) => .ok nv
      | .error => .error
      | .panic => .panic
    | .error => .error
    | .panic => .panic
  | .error => .error
  | .panic => .panic

-- ----------------------------------------------------------------------
-- Helper lemmas about the decode loops

/-- The fixed-width write loop touches only buffer indices `[i, i + k)`. -/
theorem plainFixedWrite_frame (ts : Nat) (data : List Nat) (k : Nat) :
    ∀ (start i : Nat) (buf : List Nat) (j : Nat), j < i ∨ i + k ≤ j →
      (plainFixedWrite ts data start i k buf)[j]? = buf[j]? := by
  induction k with
  | zero => intro start i buf j _; rfl
  | succ k ih =>
    intro start i buf j h
    have hne : i ≠ j := by omega
    simp only [plainFixedWrite]
    rw [ih (start + ts) (i + 1) _ j (by omega), List.getElem?_set_ne hne]

/-- The INT96 write loop touches only buffer indices `[i, i + k)`. -/
theorem plainInt96Write_frame (data : List Nat) (k : Nat) :
    ∀ (start i : Nat) (buf : List (List Nat)) (j : Nat), j < i ∨ i + k ≤ j →
      (plainInt96Write data start i k buf)[j]? = buf[j]? := by
  induction k with
  | zero => intro start i buf j _; rfl
  | succ k ih =>
    intro start i buf j h
    have hne : i ≠ j := by omega
    simp only [plainInt96Write]
    rw [ih (start + 12) (i + 1) _ j (by omega), List.getElem?_set_ne hne]

/-- A successful boolean decode loop touches only buffer indices
`[i, i + k)`. -/
theorem plainBoolLoop_frame (k : Nat) :
    ∀ (i : Nat) (r : BitReader) (buf : List Bool) (r2 : BitReader) (buf2 : List Bool),
      plainBoolLoop i k r buf = (.ok (), r2, buf2) →
      ∀ j, j < i ∨ i + k ≤ j → buf2[j]? = buf[j]? := by
  induction k with
  | zero =>
    intro i r buf r2 buf2 h j _
    simp only [plainBoolLoop, Prod.mk.injEq] at h
    rw [← h.2.2]
  | succ k ih =>
    intro i r buf r2 buf2 h j hj
    have hne : i ≠ j := by omega
    simp only [plainBoolLoop] at h
    split at h
    case _ v r3 heq =>
      rw [ih (i + 1) r3 _ r2 buf2 h j (by omega), List.getElem?_set_ne hne]
    case _ => exact absurd h (by simp)
    case _ => exact absurd h (by simp)

/-- A successful PLAIN byte-array decode loop touches only buffer indices
`[i, i + k)`. -/
theorem plainByteArrayLoop_frame (data : List Nat) (k : Nat) :
    ∀ (i start : Nat) (buf : List (List Nat)) (start2 : Nat) (buf2 : List (List Nat)),
      plainByteArrayLoop data i k start buf = (.ok (), start2, buf2) →
      ∀ j, j < i ∨ i + k ≤ j → buf2[j]? = buf[j]? := by
  induction k with
  | zero =>
    intro i start buf start2 buf2 h j _
    simp only [plainByteArrayLoop, Prod.mk.injEq] at h
    rw [← h.2.2]
  | succ k ih =>
    intro i start buf start2 buf2 h j hj
    have hne : i ≠ j := by omega
    simp only [plainByteArrayLoop] at h
    split at h
    · exact absurd h (by simp)
    · split at h
      · exact absurd h (by simp)
      · rw [ih (i + 1) _ _ start2 buf2 h j (by omega), List.getElem?_set_ne hne]

/-- A successful FIXED_LEN_BYTE_ARRAY decode loop touches only buffer
indices `[i, i + k)`. -/
theorem plainFlbaLoop_frame (data : List Nat) (typeLen : Nat) (k : Nat) :
    ∀ (i start : Nat) (buf : List (List Nat)) (start2 : Nat) (buf2 : List (List Nat)),
      plainFlbaLoop data typeLen i k start buf = (.ok (), start2, buf2) →
      ∀ j, j < i ∨ i + k ≤ j → buf2[j]? = buf[j]? := by
  induction k with
  | zero =>
    intro i start buf start2 buf2 h j _
    simp only [plainFlbaLoop, Prod.mk.injEq] at h
    rw [← h.2.2]
  | succ k ih =>
    intro i start buf start2 buf2 h j hj
    have hne : i ≠ j := by omega
    simp only [plainFlbaLoop] at h
    split at h
    · exact absurd h (by simp)
    · rw [ih (i + 1) _ _ start2 buf2 h j (by omega), List.getElem?_set_ne hne]

/-- A successful DELTA_LENGTH_BYTE_ARRAY decode loop touches only buffer
indices `[i, i + k)`. -/
theorem dlbaLoop_frame (lengths : List Int) (dataBytes : List Nat) (k : Nat) :
    ∀ (i idx off : Nat) (buf : List (List Nat)) (idx2 off2 : Nat) (buf2 : List (List Nat)),
      dlbaLoop lengths dataBytes i k idx off buf = (.ok (), idx2, off2, buf2) →
      ∀ j, j < i ∨ i + k ≤ j → buf2[j]? = buf[j]? := by
  induction k with
  | zero =>
    intro i idx off buf idx2 off2 buf2 h j _
    simp only [dlbaLoop, Prod.mk.injEq] at h
    rw [← h.2.2.2]
  | succ k ih =>
    intro i idx off buf idx2 off2 buf2 h j hj
    have hne : i ≠ j := by omega
    simp only [dlbaLoop] at h
    split at h
    · exact absurd h (by simp)
    case _ lenI heq =>
      split at h
      · exact absurd h (by simp)
      · split at h
        · exact absurd h (by simp)
        · rw [ih (i + 1) _ _ _ idx2 off2 buf2 h j (by omega),
              List.getElem?_set_ne hne]

/-- A successful DELTA_BYTE_ARRAY decode loop touches only buffer indices
`[i, i + k)`. -/
theorem dbaLoop_frame (k : Nat) :
    ∀ (i : Nat) (s : DeltaByteArrayDecoder) (buf : List (List Nat))
      (s2 : DeltaByteArrayDecoder) (buf2 : List (List Nat)),
      dbaLoop i k s buf = (.ok (), s2, buf2) →
      ∀ j, j < i ∨ i + k ≤ j → buf2[j]? = buf[j]? := by
  induction k with
  | zero =>
    intro i s buf s2 buf2 h j _
    simp only [dbaLoop, Prod.mk.injEq] at h
    rw [← h.2.2]
  | succ k ih =>
    intro i s buf s2 buf2 h j hj
    have hne : i ≠ j := by omega
    simp only [dbaLoop] at h
    split at h
    · exact absurd h (by simp)
    case _ prefixLen heq =>
      split at h
      case _ prefixSlice heq2 =>
        split at h
        · exact absurd h (by simp)
        case _ suffixDecoder heq3 =>
          split at h
          case _ cnt sd2 sbuf heq4 =>
            rw [ih (i + 1) _ _ s2 buf2 h j (by omega), List.getElem?_set_ne hne]
          case _ => exact absurd h (by simp)
          case _ => exact absurd h (by simp)
      · exact absurd h (by simp)
      · exact absurd h (by simp)

/-- A successful DELTA_BINARY_PACKED decode loop touches only buffer
indices `[i, i + k)`. -/
theorem deltaDecodeLoop_frame (k : Nat) :
    ∀ (i : Nat) (s : DeltaBitPackDecoder) (buf : List Int)
      (s2 : DeltaBitPackDecoder) (buf2 : List Int),
      deltaDecodeLoop i k s buf = (.ok (), s2, buf2) →
      ∀ j, j < i ∨ i + k ≤ j → buf2[j]? = buf[j]? := by
  induction k with
  | zero =>
    intro i s buf s2 buf2 h j _
    simp only [deltaDecodeLoop, Prod.mk.injEq] at h
    rw [← h.2.2]
  | succ k ih =>
    intro i s buf s2 buf2 h j hj
    have hne : i ≠ j := by omega
    simp only [deltaDecodeLoop] at h
    split at h
    · rw [ih (i + 1) _ _ s2 buf2 h j (by omega), List.getElem?_set_ne hne]
    · split at h
      case _ v s1 heq =>
        rw [ih (i + 1) _ _ s2 buf2 h j (by omega), List.getElem?_set_ne hne]
      case _ => exact absurd h (by simp)
      case _ => exact absurd h (by simp)

/-- A successful raw RLE decode loop starting at index `i` with capacity
`k` returns a count `m` with `i ≤ m ≤ i + k` and touches only buffer
indices `[i, m)`. -/
theorem rawRleLoop_ok {α : Type} (conv : Nat → Outcome α) (k : Nat) :
    ∀ (i : Nat) (d : RawRleDecoder) (buf : List α) (m : Nat)
      (d2 : RawRleDecoder) (buf2 : List α),
      rawRleLoop conv i k d buf = (.ok m, d2, buf2) →
      i ≤ m ∧ m ≤ i + k ∧ ∀ j, j < i ∨ m ≤ j → buf2[j]? = buf[j]? := by
  induction k with
  | zero =>
    intro i d buf m d2 buf2 h
    simp only [rawRleLoop, Prod.mk.injEq, Outcome.ok.injEq] at h
    obtain ⟨h1, _, h3⟩ := h
    subst h1
    exact ⟨le_refl i, by omega, fun j _ => by rw [← h3]⟩
  | succ k ih =>
    intro i d buf m d2 buf2 h
    simp only [rawRleLoop] at h
    split at h
    · simp only [Prod.mk.injEq, Outcome.ok.injEq] at h
      obtain ⟨h1, _, h3⟩ := h
      subst h1
      exact ⟨le_refl i, by omega, fun j _ => by rw [← h3]⟩
    case _ v d3 heq =>
      split at h
      case _ a heq2 =>
        obtain ⟨hm1, hm2, hframe⟩ := ih (i + 1) d3 (buf.set i a) m d2 buf2 h
        refine ⟨by omega, by omega, fun j hj => ?_⟩
        have hne : i ≠ j := by omega
        rw [hframe j (by omega), List.getElem?_set_ne hne]
      case _ => exact absurd h (by simp)
      case _ => exact absurd h (by simp)
    case _ => exact absurd h (by simp)
    case _ => exact absurd h (by simp)

/-- `init_block` never changes the remaining value count. -/
theorem initBlock_numValues (s s2 : DeltaBitPackDecoder)
    (h : DeltaBitPackDecoder.initBlock s = .ok s2) : s2.numValues = s.numValues := by
  simp only [DeltaBitPackDecoder.initBlock] at h
  split at h
  · exact absurd h (by simp)
  split at h
  case _ minDelta r1 heq =>
    split at h
    case _ widths r2 heq2 =>
      simp only [Outcome.ok.injEq] at h
      rw [← h]
    case _ => exact absurd h (by simp)
    case _ => exact absurd h (by simp)
  case _ => exact absurd h (by simp)
  case _ => exact absurd h (by simp)

/-- The mini-block bookkeeping never changes the remaining value count. -/
theorem deltaAdvanceBlock_numValues (s s2 : DeltaBitPackDecoder)
    (h : deltaAdvanceBlock s = .ok s2) : s2.numValues = s.numValues := by
  simp only [deltaAdvanceBlock] at h
  split at h
  · simp only [Outcome.ok.injEq] at h
    rw [← h]
  · exact initBlock_numValues _ _ h

/-- Producing one non-first value never changes the remaining value count. -/
theorem deltaNextValue_numValues (s : DeltaBitPackDecoder) (v : Int)
    (s2 : DeltaBitPackDecoder) (h : deltaNextValue s = .ok (v, s2)) :
    s2.numValues = s.numValues := by
  simp only [deltaNextValue] at h
  split at h
  case _ s1 heq =>
    have h1 : s1.numValues = s.numValues := by
      revert heq
      split
      · exact fun heq => deltaAdvanceBlock_numValues _ _ heq
      · intro heq
        simp only [Outcome.ok.injEq] at heq
        rw [← heq]
    split at h
    · exact absurd h (by simp)
    split at h
    case _ delta r2 heq2 =>
      simp only [Outcome.ok.injEq, Prod.mk.injEq] at h
      rw [← h.2]
      exact h1
    case _ => exact absurd h (by simp)
    case _ => exact absurd h (by simp)
  case _ => exact absurd h (by simp)
  case _ => exact absurd h (by simp)

/-- The DELTA_BINARY_PACKED decode loop never changes the remaining value
count. -/
theorem deltaDecodeLoop_numValues (k : Nat) :
    ∀ (i : Nat) (s : DeltaBitPackDecoder) (buf : List Int)
      (s2 : DeltaBitPackDecoder) (buf2 : List Int),
      deltaDecodeLoop i k s buf = (.ok (), s2, buf2) →
      s2.numValues = s.numValues := by
  induction k with
  | zero =>
    intro i s buf s2 buf2 h
    simp only [deltaDecodeLoop, Prod.mk.injEq] at h
    rw [← h.2.1]
  | succ k ih =>
    intro i s buf s2 buf2 h
    simp only [deltaDecodeLoop] at h
    split at h
    · exact ih (i + 1) { s with firstValueRead := true } _ s2 buf2 h
    · split at h
      case _ v s1 heq =>
        rw [ih (i + 1) _ _ s2 buf2 h]
        exact deltaNextValue_numValues s v s1 heq
      case _ => exact absurd h (by simp)
      case _ => exact absurd h (by simp)

/-- Unfolding equation of the DELTA_BINARY_PACKED decode loop at zero
capacity. -/
theorem deltaDecodeLoop_zero (i : Nat) (s : DeltaBitPackDecoder) (buf : List Int) :
    deltaDecodeLoop i 0 s buf = (.ok (), s, buf) := rfl

/-- Unfolding equation of the DELTA_BINARY_PACKED decode loop at positive
capacity. -/
theorem deltaDecodeLoop_succ (i k : Nat) (s : DeltaBitPackDecoder) (buf : List Int) :
    deltaDecodeLoop i (k + 1) s buf =
      if s.firstValueRead = false then
        deltaDecodeLoop (i + 1) k { s with firstValueRead := true }
          (buf.set i s.firstValue)
      else
        match deltaNextValue s with
        | .ok (v, s1) => deltaDecodeLoop (i + 1) k s1 (buf.set i v)
        | .error => (.error, s, buf)
        | .panic => (.panic, s, buf) := rfl

/-- A successful `DeltaBitPackDecoder::set_data` leaves `first_value_read`
false and installs a bit reader. -/
theorem deltaSetData_ok (s : DeltaBitPackDecoder) (data : List Nat) (n : Nat)
    (d : DeltaBitPackDecoder) (h : DeltaBitPackDecoder.setData s data n = .ok d) :
    d.firstValueRead = false ∧ d.bitReader.isSome = true := by
  simp only [DeltaBitPackDecoder.setData] at h
  split at h
  case _ blockSize r1 heq1 =>
    split at h
    case _ numMiniBlocks r2 heq2 =>
      split at h
      case _ numValues r3 heq3 =>
        split at h
        case _ firstValue r4 heq4 =>
          split at h
          · exact absurd h (by simp)
          split at h
          · exact absurd h (by simp)
          simp only [Outcome.ok.injEq] at h
          rw [← h]
          exact ⟨rfl, rfl⟩
        case _ => exact absurd h (by simp)
        case _ => exact absurd h (by simp)
      case _ => exact absurd h (by simp)
      case _ => exact absurd h (by simp)
    case _ => exact absurd h (by simp)
    case _ => exact absurd h (by simp)
  case _ => exact absurd h (by simp)
  case _ => exact absurd h (by simp)

-- ----------------------------------------------------------------------
-- Claim theorems

/-- Claim C4: for every decoder in the family and every successful call
`decode(out, max)` after `set_data`, the returned count `k` satisfies
`k ≤ min(max, values_left)` — no decoder produces more values than either
the caller's `max` or its remaining value count. -/
theorem c4_decode_count_bounded :
    (∀ (ts : Nat) (s : PlainDecoder) (buf : List Nat) (mx k : Nat)
       (s2 : PlainDecoder) (buf2 : List Nat),
       plainDecodeFixed ts s buf mx = (.ok k, s2, buf2) →
       k ≤ min mx s.valuesLeft)
  ∧ (∀ (s : PlainDecoder) (buf : List Bool) (mx k : Nat)
       (s2 : PlainDecoder) (buf2 : List Bool),
       plainDecodeBool s buf mx = (.ok k, s2, buf2) →
       k ≤ min mx s.valuesLeft)
  ∧ (∀ (s : PlainDecoder) (buf : List (List Nat)) (mx k : Nat)
       (s2 : PlainDecoder) (buf2 : List (List Nat)),
       plainDecodeByteArray s buf mx = (.ok k, s2, buf2) →
       k ≤ min mx s.valuesLeft)
  ∧ (∀ (s : PlainDecoder) (buf : List (List Nat)) (mx k : Nat)
       (s2 : PlainDecoder) (buf2 : List (List Nat)),
       plainDecodeFlba s buf mx = (.ok k, s2, buf2) →
       k ≤ min mx s.valuesLeft)
  ∧ (∀ (s : PlainDecoder) (buf : List (List Nat)) (mx k : Nat)
       (s2 : PlainDecoder) (buf2 : List (List Nat)),
       plainDecodeInt96 s buf mx = (.ok k, s2, buf2) →
       k ≤ min mx s.valuesLeft)
  ∧ (∀ (α : Type) (s : DictDecoder α) (buf : List α) (mx k : Nat)
       (s2 : DictDecoder α) (buf2 : List α),
       DictDecoder.decode s buf mx = (.ok k, s2, buf2) →
       k ≤ min mx s.valuesLeft)
  ∧ (∀ (s : RleDecoder) (buf : List Nat) (mx k : Nat)
       (s2 : RleDecoder) (buf2 : List Nat),
       RleDecoder.decode s buf mx = (.ok k, s2, buf2) →
       k ≤ min mx s.valuesLeft)
  ∧ (∀ (s : DeltaBitPackDecoder) (buf : List Int) (mx k : Nat)
       (s2 : DeltaBitPackDecoder) (buf2 : List Int),
       DeltaBitPackDecoder.decode s buf mx = (.ok k, s2, buf2) →
       k ≤ min mx s.valuesLeft)
  ∧ (∀ (s : DeltaLengthByteArrayDecoder) (buf : List (List Nat)) (mx k : Nat)
       (s2 : DeltaLengthByteArrayDecoder) (buf2 : List (List Nat)),
       DeltaLengthByteArrayDecoder.decode s buf mx = (.ok k, s2, buf2) →
       k ≤ min mx s.valuesLeft)
  ∧ (∀ (s : DeltaByteArrayDecoder) (buf : List (List Nat)) (mx k : Nat)
       (s2 : DeltaByteArrayDecoder) (buf2 : List (List Nat)),
       DeltaByteArrayDecoder.decode s buf mx = (.ok k, s2, buf2) →
       k ≤ min mx s.valuesLeft) := by
  refine ⟨?_, ?_, ?_, ?_, ?_, ?_, ?_, ?_, ?_, ?_⟩
  · intro ts s buf mx k s2 buf2 h
    simp only [plainDecodeFixed] at h
    split at h
    · exact absurd h (by simp)
    split at h
    · exact absurd h (by simp)
    split at h
    · exact absurd h (by simp)
    split at h
    · exact absurd h (by simp)
    simp only [Prod.mk.injEq, Outcome.ok.injEq] at h
    simp only [PlainDecoder.valuesLeft]
    omega
  · intro s buf mx k s2 buf2 h
    simp only [plainDecodeBool] at h
    split at h
    · exact absurd h (by simp)
    split at h
    · exact absurd h (by simp)
    split at h
    case _ r2 buf2a heq =>
      simp only [Prod.mk.injEq, Outcome.ok.injEq] at h
      simp only [PlainDecoder.valuesLeft]
      omega
    case _ => exact absurd h (by simp)
    case _ => exact absurd h (by simp)
  · intro s buf mx k s2 buf2 h
    simp only [plainDecodeByteArray] at h
    split at h
    · exact absurd h (by simp)
    split at h
    · exact absurd h (by simp)
    split at h
    case _ start2 buf2a heq =>
      simp only [Prod.mk.injEq, Outcome.ok.injEq] at h
      simp only [PlainDecoder.valuesLeft]
      omega
    case _ => exact absurd h (by simp)
    case _ => exact absurd h (by simp)
  · intro s buf mx k s2 buf2 h
    simp only [plainDecodeFlba] at h
    split at h
    · exact absurd h (by simp)
    split at h
    · exact absurd h (by simp)
    split at h
    · exact absurd h (by simp)
    split at h
    case _ start2 buf2a heq =>
      simp only [Prod.mk.injEq, Outcome.ok.injEq] at h
      simp only [PlainDecoder.valuesLeft]
      omega
    case _ => exact absurd h (by simp)
    case _ => exact absurd h (by simp)
  · intro s buf mx k s2 buf2 h
    simp only [plainDecodeInt96] at h
    split at h
    · exact absurd h (by simp)
    split at h
    · exact absurd h (by simp)
    split at h
    · exact absurd h (by simp)
    split at h
    · exact absurd h (by simp)
    simp only [Prod.mk.injEq, Outcome.ok.injEq] at h
    simp only [PlainDecoder.valuesLeft]
    omega
  · intro α s buf mx k s2 buf2 h
    simp only [DictDecoder.decode] at h
    split at h
    · exact absurd h (by simp)
    split at h
    · exact absurd h (by simp)
    split at h
    · exact absurd h (by simp)
    rename_i rle hrle hdict
    revert h
    cases hcall : rawRleDecodeWithDict s.dictionary rle buf (min mx s.numValues) with
    | mk res rest =>
      obtain ⟨rd2, rbuf2⟩ := rest
      intro h
      simp only [Prod.mk.injEq] at h
      obtain ⟨h1, _, _⟩ := h
      subst h1
      simp only [rawRleDecodeWithDict] at hcall
      split at hcall
      · exact absurd hcall (by simp)
      · obtain ⟨_, hm2, _⟩ :=
          rawRleLoop_ok _ (min mx s.numValues) 0 rle buf k rd2 rbuf2 hcall
        simpa [DictDecoder.valuesLeft] using hm2
  · intro s buf mx k s2 buf2 h
    simp only [RleDecoder.decode] at h
    revert h
    cases hcall : rawRleDecode s.decoder buf mx with
    | mk res rest =>
      obtain ⟨rd2, rbuf2⟩ := rest
      intro h
      cases res with
      | ok m =>
        simp only at h
        split at h
        · exact absurd h (by simp)
        · simp only [Prod.mk.injEq, Outcome.ok.injEq] at h
          obtain ⟨h1, _, _⟩ := h
          subst h1
          simp only [rawRleDecode] at hcall
          split at hcall
          · exact absurd hcall (by simp)
          · obtain ⟨_, hm2, _⟩ :=
              rawRleLoop_ok _ mx 0 s.decoder buf m rd2 rbuf2 hcall
            simp only [RleDecoder.valuesLeft]
            omega
      | error => exact absurd h (by simp)
      | panic => exact absurd h (by simp)
  · intro s buf mx k s2 buf2 h
    simp only [DeltaBitPackDecoder.decode] at h
    split at h
    · exact absurd h (by simp)
    split at h
    · exact absurd h (by simp)
    split at h
    case _ u s3 buf3 heq =>
      simp only [Prod.mk.injEq, Outcome.ok.injEq] at h
      simp only [DeltaBitPackDecoder.valuesLeft]
      omega
    case _ => exact absurd h (by simp)
    case _ => exact absurd h (by simp)
  · intro s buf mx k s2 buf2 h
    simp only [DeltaLengthByteArrayDecoder.decode] at h
    split at h
    · exact absurd h (by simp)
    split at h
    · exact absurd h (by simp)
    split at h
    case _ u idx2 off2 buf2a heq =>
      simp only [Prod.mk.injEq, Outcome.ok.injEq] at h
      simp only [DeltaLengthByteArrayDecoder.valuesLeft]
      omega
    case _ => exact absurd h (by simp)
    case _ => exact absurd h (by simp)
  · intro s buf mx k s2 buf2 h
    simp only [DeltaByteArrayDecoder.decode] at h
    split at h
    · exact absurd h (by simp)
    split at h
    · exact absurd h (by simp)
    split at h
    case _ u s3 buf3 heq =>
      simp only [Prod.mk.injEq, Outcome.ok.injEq] at h
      simp only [DeltaByteArrayDecoder.valuesLeft]
      omega
    case _ => exact absurd h (by simp)
    case _ => exact absurd h (by simp)

/-- Claim C8: for every decoder and every successful `decode(buffer, max)`
returning `k`, only buffer indices `[0, k)` are written; indices from `k`
on retain their previous contents. -/
theorem c8_decode_frame :
    (∀ (ts : Nat) (s : PlainDecoder) (buf : List Nat) (mx k : Nat)
       (s2 : PlainDecoder) (buf2 : List Nat),
       plainDecodeFixed ts s buf mx = (.ok k, s2, buf2) →
       ∀ j, k ≤ j → buf2[j]? = buf[j]?)
  ∧ (∀ (s : PlainDecoder) (buf : List Bool) (mx k : Nat)
       (s2 : PlainDecoder) (buf2 : List Bool),
       plainDecodeBool s buf mx = (.ok k, s2, buf2) →
       ∀ j, k ≤ j → buf2[j]? = buf[j]?)
  ∧ (∀ (s : PlainDecoder) (buf : List (List Nat)) (mx k : Nat)
       (s2 : PlainDecoder) (buf2 : List (List Nat)),
       plainDecodeByteArray s buf mx = (.ok k, s2, buf2) →
       ∀ j, k ≤ j → buf2[j]? = buf[j]?)
  ∧ (∀ (s : PlainDecoder) (buf : List (List Nat)) (mx k : Nat)
       (s2 : PlainDecoder) (buf2 : List (List Nat)),
       plainDecodeFlba s buf mx = (.ok k, s2, buf2) →
       ∀ j, k ≤ j → buf2[j]? = buf[j]?)
  ∧ (∀ (s : PlainDecoder) (buf : List (List Nat)) (mx k : Nat)
       (s2 : PlainDecoder) (buf2 : List (List Nat)),
       plainDecodeInt96 s buf mx = (.ok k, s2, buf2) →
       ∀ j, k ≤ j → buf2[j]? = buf[j]?)
  ∧ (∀ (α : Type) (s : DictDecoder α) (buf : List α) (mx k : Nat)
       (s2 : DictDecoder α) (buf2 : List α),
       DictDecoder.decode s buf mx = (.ok k, s2, buf2) →
       ∀ j, k ≤ j → buf2[j]? = buf[j]?)
  ∧ (∀ (s : RleDecoder) (buf : List Nat) (mx k : Nat)
       (s2 : RleDecoder) (buf2 : List Nat),
       RleDecoder.decode s buf mx = (.ok k, s2, buf2) →
       ∀ j, k ≤ j → buf2[j]? = buf[j]?)
  ∧ (∀ (s : DeltaBitPackDecoder) (buf : List Int) (mx k : Nat)
       (s2 : DeltaBitPackDecoder) (buf2 : List Int),
       DeltaBitPackDecoder.decode s buf mx = (.ok k, s2, buf2) →
       ∀ j, k ≤ j → buf2[j]? = buf[j]?)
  ∧ (∀ (s : DeltaLengthByteArrayDecoder) (buf : List (List Nat)) (mx k : Nat)
       (s2 : DeltaLengthByteArrayDecoder) (buf2 : List (List Nat)),
       DeltaLengthByteArrayDecoder.decode s buf mx = (.ok k, s2, buf2) →
       ∀ j, k ≤ j → buf2[j]? = buf[j]?)
  ∧ (∀ (s : DeltaByteArrayDecoder) (buf : List (List Nat)) (mx k : Nat)
       (s2 : DeltaByteArrayDecoder) (buf2 : List (List Nat)),
       DeltaByteArrayDecoder.decode s buf mx = (.ok k, s2, buf2) →
       ∀ j, k ≤ j → buf2[j]? = buf[j]?) := by
  refine ⟨?_, ?_, ?_, ?_, ?_, ?_, ?_, ?_, ?_, ?_⟩
  · intro ts s buf mx k s2 buf2 h
    simp only [plainDecodeFixed] at h
    split at h
    · exact absurd h (by simp)
    split at h
    · exact absurd h (by simp)
    rename_i data hdata
    split at h
    · exact absurd h (by simp)
    split at h
    · exact absurd h (by simp)
    simp only [Prod.mk.injEq, Outcome.ok.injEq] at h
    obtain ⟨hk, _, hb⟩ := h
    intro j hj
    rw [← hb]
    exact plainFixedWrite_frame ts data _ s.start 0 buf j (Or.inr (by omega))
  · intro s buf mx k s2 buf2 h
    simp only [plainDecodeBool] at h
    split at h
    · exact absurd h (by simp)
    split at h
    · exact absurd h (by simp)
    rename_i r hr
    split at h
    case _ r2 buf2a heq =>
      simp only [Prod.mk.injEq, Outcome.ok.injEq] at h
      obtain ⟨hk, _, hb⟩ := h
      intro j hj
      rw [← hb]
      exact plainBoolLoop_frame _ 0 r buf r2 buf2a heq j (Or.inr (by omega))
    case _ => exact absurd h (by simp)
    case _ => exact absurd h (by simp)
  · intro s buf mx k s2 buf2 h
    simp only [plainDecodeByteArray] at h
    split at h
    · exact absurd h (by simp)
    split at h
    · exact absurd h (by simp)
    rename_i data hdata
    split at h
    case _ start2 buf2a heq =>
      simp only [Prod.mk.injEq, Outcome.ok.injEq] at h
      obtain ⟨hk, _, hb⟩ := h
      intro j hj
      rw [← hb]
      exact plainByteArrayLoop_frame data _ 0 s.start buf start2 buf2a heq j
        (Or.inr (by omega))
    case _ => exact absurd h (by simp)
    case _ => exact absurd h (by simp)
  · intro s buf mx k s2 buf2 h
    simp only [plainDecodeFlba] at h
    split at h
    · exact absurd h (by simp)
    split at h
    · exact absurd h (by simp)
    rename_i data hdata
    split at h
    · exact absurd h (by simp)
    split at h
    case _ start2 buf2a heq =>
      simp only [Prod.mk.injEq, Outcome.ok.injEq] at h
      obtain ⟨hk, _, hb⟩ := h
      intro j hj
      rw [← hb]
      exact plainFlbaLoop_frame data _ _ 0 s.start buf start2 buf2a heq j
        (Or.inr (by omega))
    case _ => exact absurd h (by simp)
    case _ => exact absurd h (by simp)
  · intro s buf mx k s2 buf2 h
    simp only [plainDecodeInt96] at h
    split at h
    · exact absurd h (by simp)
    split at h
    · exact absurd h (by simp)
    rename_i data hdata
    split at h
    · exact absurd h (by simp)
    split at h
    · exact absurd h (by simp)
    simp only [Prod.mk.injEq, Outcome.ok.injEq] at h
    obtain ⟨hk, _, hb⟩ := h
    intro j hj
    rw [← hb]
    exact plainInt96Write_frame data _ s.start 0 buf j (Or.inr (by omega))
  · intro α s buf mx k s2 buf2 h
    simp only [DictDecoder.decode] at h
    split at h
    · exact absurd h (by simp)
    split at h
    · exact absurd h (by simp)
    split at h
    · exact absurd h (by simp)
    rename_i rle hrle hdict
    revert h
    cases hcall : rawRleDecodeWithDict s.dictionary rle buf (min mx s.numValues) with
    | mk res rest =>
      obtain ⟨rd2, rbuf2⟩ := rest
      intro h
      simp only [Prod.mk.injEq] at h
      obtain ⟨h1, _, h3⟩ := h
      subst h1
      simp only [rawRleDecodeWithDict] at hcall
      split at hcall
      · exact absurd hcall (by simp)
      · obtain ⟨_, _, hframe⟩ :=
          rawRleLoop_ok _ (min mx s.numValues) 0 rle buf k rd2 rbuf2 hcall
        intro j hj
        rw [← h3]
        exact hframe j (Or.inr hj)
  · intro s buf mx k s2 buf2 h
    simp only [RleDecoder.decode] at h
    revert h
    cases hcall : rawRleDecode s.decoder buf mx with
    | mk res rest =>
      obtain ⟨rd2, rbuf2⟩ := rest
      intro h
      cases res with
      | ok m =>
        simp only at h
        split at h
        · exact absurd h (by simp)
        · simp only [Prod.mk.injEq, Outcome.ok.injEq] at h
          obtain ⟨h1, _, h3⟩ := h
          subst h1
          simp only [rawRleDecode] at hcall
          split at hcall
          · exact absurd hcall (by simp)
          · obtain ⟨_, _, hframe⟩ :=
              rawRleLoop_ok _ mx 0 s.decoder buf m rd2 rbuf2 hcall
            intro j hj
            rw [← h3]
            exact hframe j (Or.inr hj)
      | error => exact absurd h (by simp)
      | panic => exact absurd h (by simp)
  · intro s buf mx k s2 buf2 h
    simp only [DeltaBitPackDecoder.decode] at h
    split at h
    · exact absurd h (by simp)
    split at h
    · exact absurd h (by simp)
    split at h
    case _ u s3 buf3 heq =>
      simp only [Prod.mk.injEq, Outcome.ok.injEq] at h
      obtain ⟨hk, _, hb⟩ := h
      intro j hj
      rw [← hb]
      exact deltaDecodeLoop_frame _ 0 s buf s3 buf3 heq j (Or.inr (by omega))
    case _ => exact absurd h (by simp)
    case _ => exact absurd h (by simp)
  · intro s buf mx k s2 buf2 h
    simp only [DeltaLengthByteArrayDecoder.decode] at h
    split at h
    · exact absurd h (by simp)
    rename_i dataBytes hdata
    split at h
    · exact absurd h (by simp)
    split at h
    case _ u idx2 off2 buf2a heq =>
      simp only [Prod.mk.injEq, Outcome.ok.injEq] at h
      obtain ⟨hk, _, hb⟩ := h
      intro j hj
      rw [← hb]
      exact dlbaLoop_frame s.lengths dataBytes _ 0 s.currentIdx s.offset buf
        idx2 off2 buf2a heq j (Or.inr (by omega))
    case _ => exact absurd h (by simp)
    case _ => exact absurd h (by simp)
  · intro s buf mx k s2 buf2 h
    simp only [DeltaByteArrayDecoder.decode] at h
    split at h
    · exact absurd h (by simp)
    split at h
    · exact absurd h (by simp)
    split at h
    case _ u s3 buf3 heq =>
      simp only [Prod.mk.injEq, Outcome.ok.injEq] at h
      obtain ⟨hk, _, hb⟩ := h
      intro j hj
      rw [← hb]
      exact dbaLoop_frame _ 0 s buf s3 buf3 heq j (Or.inr (by omega))
    case _ => exact absurd h (by simp)
    case _ => exact absurd h (by simp)

/-- Witness for C4: every conjunct applied at a concrete successful decode. -/
theorem c4_decode_count_bounded_witness :
    (1 ≤ min 1 1) ∧ (10 ≤ min 10 10) ∧ (2 ≤ min 2 2) ∧ (3 ≤ min 3 3)
  ∧ (1 ≤ min 1 1) ∧ (1 ≤ min 1 1) ∧ (1 ≤ min 1 1) ∧ (1 ≤ min 1 1)
  ∧ (2 ≤ min 2 2) ∧ (2 ≤ min 2 2) :=
  ⟨c4_decode_count_bounded.1 4 ⟨1, 0, -1, some [42,0,0,0], none⟩ [0,99] 1 1
     ⟨0, 4, -1, some [42,0,0,0], none⟩ [42,99] (by decide),
   c4_decode_count_bounded.2.1 ⟨10, 0, -1, none, some (BitReader.new [210,2])⟩
     (List.replicate 11 false) 10 10
     ⟨0, 0, -1, none, some ⟨[210,2], 10⟩⟩
     [false,true,false,false,true,false,true,true,false,true,false] (by decide),
   c4_decode_count_bounded.2.2.1
     ⟨2, 0, -1, some [5,0,0,0,104,101,108,108,111,7,0,0,0,112,97,114,113,117,101,116], none⟩
     [[],[],[]] 2 2
     ⟨0, 20, -1, some [5,0,0,0,104,101,108,108,111,7,0,0,0,112,97,114,113,117,101,116], none⟩
     [[104,101,108,108,111],[112,97,114,113,117,101,116],[]] (by decide),
   c4_decode_count_bounded.2.2.2.1
     ⟨3, 0, 4, some [98,105,114,100,99,111,109,101,102,108,111,119], none⟩
     [[],[],[],[]] 3 3
     ⟨0, 12, 4, some [98,105,114,100,99,111,109,101,102,108,111,119], none⟩
     [[98,105,114,100],[99,111,109,101],[102,108,111,119],[]] (by decide),
   c4_decode_count_bounded.2.2.2.2.1
     ⟨1, 0, -1, some [11,0,0,0,22,0,0,0,33,0,0,0], none⟩ [[],[]] 1 1
     ⟨0, 12, -1, some [11,0,0,0,22,0,0,0,33,0,0,0], none⟩
     [[11,22,33],[]] (by decide),
   c4_decode_count_bounded.2.2.2.2.2.1 Nat
     ⟨[7], true, some ⟨0, BitReader.new [2], 0, 0, 0⟩, 1⟩ [0,99] 1 1
     ⟨[7], true, some ⟨0, ⟨[2], 8⟩, 0, 0, 0⟩, 1⟩ [7,99] (by decide),
   c4_decode_count_bounded.2.2.2.2.2.2.1
     ⟨8, ⟨8, BitReader.new [2,5], 0, 0, 0⟩, 1, 0⟩ [0,99] 1 1
     ⟨8, ⟨8, ⟨[2,5], 16⟩, 0, 5, 0⟩, 0, 0⟩ [5,99] (by decide),
   c4_decode_count_bounded.2.2.2.2.2.2.2.1
     ⟨some ⟨[8,1,1,6], 32⟩, 1, 1, 8, 0, 3, false, 0, 0, 0, [], 0⟩ [0,99] 1 1
     ⟨some ⟨[8,1,1,6], 32⟩, 0, 1, 8, 0, 3, true, 0, 0, 0, [], 0⟩ [3,99] (by decide),
   c4_decode_count_bounded.2.2.2.2.2.2.2.2.1
     ⟨[2,1], 0, some [97,98,99], 0, 2⟩ [[],[],[]] 2 2
     ⟨[2,1], 2, some [97,98,99], 3, 0⟩ [[97,98],[99],[]] (by decide),
   c4_decode_count_bounded.2.2.2.2.2.2.2.2.2
     ⟨[0,1], 0, some ⟨[2,1], 0, some [97,98,99], 0, 2⟩, none, 2⟩ [[],[],[]] 2 2
     ⟨[0,1], 0, some ⟨[2,1], 2, some [97,98,99], 3, 0⟩, some [99], 0⟩
     [[97,98],[99],[]] (by decide)⟩

/-- Witness for C8: every conjunct applied at a concrete successful decode
and a concrete untouched index. -/
theorem c8_decode_frame_witness :
    (([42,99] : List Nat)[1]? = ([0,99] : List Nat)[1]?)
  ∧ (([false,true,false,false,true,false,true,true,false,true,false] : List Bool)[10]?
       = (List.replicate 11 false)[10]?)
  ∧ (([[104,101,108,108,111],[112,97,114,113,117,101,116],[]] : List (List Nat))[2]?
       = ([[],[],[]] : List (List Nat))[2]?)
  ∧ (([[98,105,114,100],[99,111,109,101],[102,108,111,119],[]] : List (List Nat))[3]?
       = ([[],[],[],[]] : List (List Nat))[3]?)
  ∧ (([[11,22,33],[]] : List (List Nat))[1]? = ([[],[]] : List (List Nat))[1]?)
  ∧ (([7,99] : List Nat)[1]? = ([0,99] : List Nat)[1]?)
  ∧ (([5,99] : List Nat)[1]? = ([0,99] : List Nat)[1]?)
  ∧ (([3,99] : List Int)[1]? = ([0,99] : List Int)[1]?)
  ∧ (([[97,98],[99],[]] : List (List Nat))[2]? = ([[],[],[]] : List (List Nat))[2]?)
  ∧ (([[97,98],[99],[]] : List (List Nat))[2]? = ([[],[],[]] : List (List Nat))[2]?) :=
  ⟨c8_decode_frame.1 4 ⟨1, 0, -1, some [42,0,0,0], none⟩ [0,99] 1 1
     ⟨0, 4, -1, some [42,0,0,0], none⟩ [42,99] (by decide) 1 (by omega),
   c8_decode_frame.2.1 ⟨10, 0, -1, none, some (BitReader.new [210,2])⟩
     (List.replicate 11 false) 10 10 ⟨0, 0, -1, none, some ⟨[210,2], 10⟩⟩
     [false,true,false,false,true,false,true,true,false,true,false] (by decide)
     10 (by omega),
   c8_decode_frame.2.2.1
     ⟨2, 0, -1, some [5,0,0,0,104,101,108,108,111,7,0,0,0,112,97,114,113,117,101,116], none⟩
     [[],[],[]] 2 2
     ⟨0, 20, -1, some [5,0,0,0,104,101,108,108,111,7,0,0,0,112,97,114,113,117,101,116], none⟩
     [[104,101,108,108,111],[112,97,114,113,117,101,116],[]] (by decide) 2 (by omega),
   c8_decode_frame.2.2.2.1
     ⟨3, 0, 4, some [98,105,114,100,99,111,109,101,102,108,111,119], none⟩
     [[],[],[],[]] 3 3
     ⟨0, 12, 4, some [98,105,114,100,99,111,109,101,102,108,111,119], none⟩
     [[98,105,114,100],[99,111,109,101],[102,108,111,119],[]] (by decide) 3 (by omega),
   c8_decode_frame.2.2.2.2.1
     ⟨1, 0, -1, some [11,0,0,0,22,0,0,0,33,0,0,0], none⟩ [[],[]] 1 1
     ⟨0, 12, -1, some [11,0,0,0,22,0,0,0,33,0,0,0], none⟩
     [[11,22,33],[]] (by decide) 1 (by omega),
   c8_decode_frame.2.2.2.2.2.1 Nat
     ⟨[7], true, some ⟨0, BitReader.new [2], 0, 0, 0⟩, 1⟩ [0,99] 1 1
     ⟨[7], true, some ⟨0, ⟨[2], 8⟩, 0, 0, 0⟩, 1⟩ [7,99] (by decide) 1 (by omega),
   c8_decode_frame.2.2.2.2.2.2.1
     ⟨8, ⟨8, BitReader.new [2,5], 0, 0, 0⟩, 1, 0⟩ [0,99] 1 1
     ⟨8, ⟨8, ⟨[2,5], 16⟩, 0, 5, 0⟩, 0, 0⟩ [5,99] (by decide) 1 (by omega),
   c8_decode_frame.2.2.2.2.2.2.2.1
     ⟨some ⟨[8,1,1,6], 32⟩, 1, 1, 8, 0, 3, false, 0, 0, 0, [], 0⟩ [0,99] 1 1
     ⟨some ⟨[8,1,1,6], 32⟩, 0, 1, 8, 0, 3, true, 0, 0, 0, [], 0⟩ [3,99] (by decide)
     1 (by omega),
   c8_decode_frame.2.2.2.2.2.2.2.2.1
     ⟨[2,1], 0, some [97,98,99], 0, 2⟩ [[],[],[]] 2 2
     ⟨[2,1], 2, some [97,98,99], 3, 0⟩ [[97,98],[99],[]] (by decide) 2 (by omega),
   c8_decode_frame.2.2.2.2.2.2.2.2.2
     ⟨[0,1], 0, some ⟨[2,1], 0, some [97,98,99], 0, 2⟩, none, 2⟩ [[],[],[]] 2 2
     ⟨[0,1], 0, some ⟨[2,1], 2, some [97,98,99], 3, 0⟩, some [99], 0⟩
     [[97,98],[99],[]] (by decide) 2 (by omega)⟩

/-- Claim C6: for `DeltaBitPackDecoder` the `num_values` argument of
`set_data` is ignored — two calls with different counts give identical
states; after a successful `set_data`, `values_left` equals the
`total_value_count` VLQ read from the stream header; and each successful
`decode` drains exactly `min(max, values_left)` of them, so the header
count is what is decodable in total. -/
theorem c6_set_data_ignores_num_values :
    (∀ (s : DeltaBitPackDecoder) (data : List Nat) (n1 n2 : Nat),
       DeltaBitPackDecoder.setData s data n1 = DeltaBitPackDecoder.setData s data n2)
  ∧ (∀ (s : DeltaBitPackDecoder) (data : List Nat) (n : Nat)
       (d : DeltaBitPackDecoder),
       DeltaBitPackDecoder.setData s data n = .ok d →
       deltaHeaderValueCount data = .ok d.valuesLeft)
  ∧ (∀ (s : DeltaBitPackDecoder) (buf : List Int) (mx k : Nat)
       (s2 : DeltaBitPackDecoder) (buf2 : List Int),
       DeltaBitPackDecoder.decode s buf mx = (.ok k, s2, buf2) →
       k = min mx s.valuesLeft ∧ s2.valuesLeft = s.valuesLeft - k) := by
  refine ⟨fun s data n1 n2 => rfl, ?_, ?_⟩
  · intro s data n d h
    simp only [DeltaBitPackDecoder.setData] at h
    split at h
    case _ blockSize r1 heq1 =>
      split at h
      case _ numMiniBlocks r2 heq2 =>
        split at h
        case _ numValues r3 heq3 =>
          split at h
          case _ firstValue r4 heq4 =>
            split at h
            · exact absurd h (by simp)
            split at h
            · exact absurd h (by simp)
            simp only [Outcome.ok.injEq] at h
            subst h
            simp only [deltaHeaderValueCount, heq1, heq2, heq3,
              DeltaBitPackDecoder.valuesLeft]
          case _ => exact absurd h (by simp)
          case _ => exact absurd h (by simp)
        case _ => exact absurd h (by simp)
        case _ => exact absurd h (by simp)
      case _ => exact absurd h (by simp)
      case _ => exact absurd h (by simp)
    case _ => exact absurd h (by simp)
    case _ => exact absurd h (by simp)
  · intro s buf mx k s2 buf2 h
    simp only [DeltaBitPackDecoder.decode] at h
    split at h
    · exact absurd h (by simp)
    split at h
    · exact absurd h (by simp)
    split at h
    case _ u s3 buf3 heq =>
      simp only [Prod.mk.injEq, Outcome.ok.injEq] at h
      obtain ⟨hk, hs, _⟩ := h
      have h3 := deltaDecodeLoop_numValues _ 0 s buf s3 buf3 heq
      subst hk
      refine ⟨rfl, ?_⟩
      rw [← hs]
      simp only [DeltaBitPackDecoder.valuesLeft]
      omega
    case _ => exact absurd h (by simp)
    case _ => exact absurd h (by simp)

/-- Witness for C6: the three conjuncts at the concrete page
`[8, 1, 1, 6]` (header `block_size = 8`, `num_mini_blocks = 1`,
`total_value_count = 1`, `first_value = 3`). -/
theorem c6_set_data_ignores_num_values_witness :
    (DeltaBitPackDecoder.setData DeltaBitPackDecoder.new [8,1,1,6] 0
       = DeltaBitPackDecoder.setData DeltaBitPackDecoder.new [8,1,1,6] 42)
  ∧ (deltaHeaderValueCount [8,1,1,6]
       = .ok (DeltaBitPackDecoder.valuesLeft
           ⟨some ⟨[8,1,1,6], 32⟩, 1, 1, 8, 0, 3, false, 0, 0, 0, [], 0⟩))
  ∧ (1 = min 1 1 ∧ 0 = 1 - 1) :=
  ⟨c6_set_data_ignores_num_values.1 DeltaBitPackDecoder.new [8,1,1,6] 0 42,
   c6_set_data_ignores_num_values.2.1 DeltaBitPackDecoder.new [8,1,1,6] 0
     ⟨some ⟨[8,1,1,6], 32⟩, 1, 1, 8, 0, 3, false, 0, 0, 0, [], 0⟩ (by decide),
   c6_set_data_ignores_num_values.2.2
     ⟨some ⟨[8,1,1,6], 32⟩, 1, 1, 8, 0, 3, false, 0, 0, 0, [], 0⟩ [0,99] 1 1
     ⟨some ⟨[8,1,1,6], 32⟩, 0, 1, 8, 0, 3, true, 0, 0, 0, [], 0⟩ [3,99] (by decide)⟩

/-- Claim C7: decoding a DELTA_BINARY_PACKED stream whose parsed header
declares a single value yields exactly `first_value`, regardless of the
header's `min_delta` or mini-block widths (which are never read). -/
theorem c7_first_value_identity (s0 : DeltaBitPackDecoder) (data : List Nat)
    (n : Nat) (d : DeltaBitPackDecoder) (buf : List Int) (mx : Nat)
    (hset : DeltaBitPackDecoder.setData s0 data n = .ok d)
    (hone : d.valuesLeft = 1) (hmx : 1 ≤ mx) (hbuf : mx ≤ buf.length) :
    DeltaBitPackDecoder.decode d buf mx =
      (.ok 1, { d with firstValueRead := true, numValues := 0 },
       buf.set 0 d.firstValue) := by
  obtain ⟨hfvr, hbr⟩ := deltaSetData_ok s0 data n d hset
  obtain ⟨r, hr⟩ := Option.isSome_iff_exists.mp hbr
  have hnum : d.numValues = 1 := hone
  have hmin : min mx d.numValues = 1 := by omega
  simp only [DeltaBitPackDecoder.decode, hr]
  rw [if_neg (by omega)]
  rw [hmin, deltaDecodeLoop_succ, hfvr]
  simp only [if_pos rfl, deltaDecodeLoop_zero, hnum]
  simp [hr]

/-- Witness for C7: the concrete single-value stream `[8, 1, 1, 6]` with
`first_value = 3` decodes to `[3]`. -/
theorem c7_first_value_identity_witness :
    DeltaBitPackDecoder.decode
      ⟨some ⟨[8,1,1,6], 32⟩, 1, 1, 8, 0, 3, false, 0, 0, 0, [], 0⟩ [0] 1 =
      (.ok 1, ⟨some ⟨[8,1,1,6], 32⟩, 0, 1, 8, 0, 3, true, 0, 0, 0, [], 0⟩, [3]) :=
  c7_first_value_identity DeltaBitPackDecoder.new [8,1,1,6] 99
    ⟨some ⟨[8,1,1,6], 32⟩, 1, 1, 8, 0, 3, false, 0, 0, 0, [], 0⟩ [0] 1
    (by decide) (by decide) (by omega) (by decide)

/-- Claim C9: for `RleDecoder` over 32-bit integers, after `set_data` on a
page whose first four bytes are the little-endian length prefix `N` (a
value fitting in a non-negative `i32`), `total_bytes()` returns
`Ok(N + 4)`, and the raw RLE decoder is delegated exactly the bytes from
offset 4 onward. -/
theorem c9_rle_total_bytes (s : RleDecoder) (data : List Nat) (n : Nat)
    (h4 : 4 ≤ data.length) (hN : leBytes (data.take 4) < 2 ^ 31) :
    RleDecoder.setData s data n =
      .ok { s with
            decoder := s.decoder.setRleData (data.drop 4),
            numValues := n, totalBytes := leBytes (data.take 4) + 4 }
  ∧ RleDecoder.totalBytesResult
      { s with
        decoder := s.decoder.setRleData (data.drop 4),
        numValues := n, totalBytes := leBytes (data.take 4) + 4 }
      = .ok (leBytes (data.take 4) + 4)
  ∧ (s.decoder.setRleData (data.drop 4)).reader.data = data.drop 4 := by
  refine ⟨?_, rfl, rfl⟩
  have hraw : (((leBytes (data.take 4) : Int)) % ((2 : Int) ^ 64)).toNat
      = leBytes (data.take 4) := by
    rw [Int.emod_eq_of_lt (by positivity)
      (by exact_mod_cast lt_trans hN (by norm_num))]
    exact Int.toNat_natCast _
  simp only [RleDecoder.setData]
  rw [if_neg (by omega), if_pos hN, hraw, if_neg (by omega)]
  simp [Nat.add_comm]

/-- Witness for C9: a page with length prefix 2 followed by two payload
bytes gives `total_bytes = 6` and delegates the payload. -/
theorem c9_rle_total_bytes_witness :
    RleDecoder.setData (RleDecoder.new 3) [2,0,0,0,170,187] 5 =
      .ok { RleDecoder.new 3 with
            decoder := (RleDecoder.new 3).decoder.setRleData [170,187],
            numValues := 5, totalBytes := leBytes [2,0,0,0] + 4 }
  ∧ RleDecoder.totalBytesResult
      { RleDecoder.new 3 with
        decoder := (RleDecoder.new 3).decoder.setRleData [170,187],
        numValues := 5, totalBytes := leBytes [2,0,0,0] + 4 }
      = .ok (leBytes [2,0,0,0] + 4)
  ∧ ((RleDecoder.new 3).decoder.setRleData [170,187]).reader.data = [170,187] :=
  c9_rle_total_bytes (RleDecoder.new 3) [2,0,0,0,170,187] 5 (by decide) (by decide)

/-- Claim C10: for `PlainDecoder` over fixed-width numeric types, when
`decode` fails because fewer bytes remain than
`size_of(T) * min(max, values_left)`, the error is returned before
anything is written: the cursor, the remaining count, and the caller's
buffer are unchanged. -/
theorem c10_plain_fixed_atomic (ts : Nat) (s : PlainDecoder) (dataBytes : List Nat)
    (buf : List Nat) (mx : Nat)
    (hdata : s.data = some dataBytes)
    (hbuf : mx ≤ buf.length)
    (hstart : s.start ≤ dataBytes.length)
    (hshort : dataBytes.length - s.start < ts * min mx s.numValues) :
    plainDecodeFixed ts s buf mx = (.error, s, buf) := by
  simp only [plainDecodeFixed, hdata]
  rw [if_neg (by omega), if_neg (by omega), if_pos hshort]

/-- Witness for C10: an INT32 page of 3 bytes asked for 2 values errors
with the state and buffer untouched. -/
theorem c10_plain_fixed_atomic_witness :
    plainDecodeFixed 4 ⟨2, 0, -1, some [1,2,3], none⟩ [0,0] 2 =
      (.error, ⟨2, 0, -1, some [1,2,3], none⟩, [0,0]) :=
  c10_plain_fixed_atomic 4 ⟨2, 0, -1, some [1,2,3], none⟩ [1,2,3] [0,0] 2
    rfl (by decide) (by decide) (by decide)

/-- Claim C1 (code-bug evidence): a `DictDecoder` configured by `set_data`
with a declared count of 3 successfully decodes 2 values, yet its
`values_left` stays at 3 — `DictDecoder::decode` never decrements
`num_values`, so `values_left` does not decrease by the returned count. -/
theorem c1_dict_values_left_not_drained :
    DictDecoder.setData ((DictDecoder.new (α := Nat)).setDict [100,200,300])
      [2,3,36,73] 3
      = .ok ⟨[100,200,300], true, some ⟨2, BitReader.new [3,36,73], 0, 0, 0⟩, 3⟩
  ∧ DictDecoder.decode
      ⟨[100,200,300], true, some ⟨2, BitReader.new [3,36,73], 0, 0, 0⟩, 3⟩
      [0,0,0] 2
      = (.ok 2, ⟨[100,200,300], true, some ⟨2, ⟨[3,36,73], 12⟩, 0, 0, 6⟩, 3⟩,
         [100,200,0])
  ∧ DictDecoder.valuesLeft
      (⟨[100,200,300], true, some ⟨2, ⟨[3,36,73], 12⟩, 0, 0, 6⟩, 3⟩ : DictDecoder Nat)
      ≠ 3 - 2 := by
  refine ⟨by decide, by decide, by decide⟩

/-- Claim C2 (code-bug evidence): on a DELTA_BYTE_ARRAY page encoding
prefix lengths `[0, 1]` and suffixes `"ab"`, `"c"`, the decoder produces
`["ab", "c"]` instead of `["ab", "ac"]`: `current_idx` is never advanced,
so every value reads `prefix_lengths[0] = 0` and no prefix is ever
applied. -/
theorem c2_dba_prefix_not_applied :
    (match DeltaByteArrayDecoder.new.setData
        [8,1,2,0,2,0,8,1,2,4,1,0,97,98,99] 2 with
     | .ok d => ((d.decode [[],[]] 2).1, (d.decode [[],[]] 2).2.2)
     | .error => (.error, [])
     | .panic => (.panic, []))
      = (.ok 2, [[97,98],[99]])
  ∧ ([[97,98],[99]] : List (List Nat)) ≠ [[97,98],[97,99]] := by
  refine ⟨by decide, by decide⟩

/-- Claim C3 (code-bug evidence). First stream: two blocks with
`min_delta = 1` then `min_delta = 0`, widths 0, `total_value_count = 10`;
`init_block` re-seeds `current_value = first_value` at the second block
header, so the last value is 0 where the running sum gives 8. Second
stream: one block with `min_delta = 1`, mini-block width 1 and packed
deltas `0xFF`; `init_block` never sets `delta_bit_width`, so the deltas
are read at the stale width 0 and the result is `[0..8]` instead of the
running sum `[0, 2, 4, ..., 16]` at width 1. -/
theorem c3_delta_decode_diverges :
    (match DeltaBitPackDecoder.new.setData [8,1,10,0,2,0,0,0] 0 with
     | .ok d => ((d.decode (List.replicate 10 0) 10).1,
                 (d.decode (List.replicate 10 0) 10).2.2)
     | .error => (.error, [])
     | .panic => (.panic, []))
      = (.ok 10, ([0,1,2,3,4,5,6,7,8,0] : List Int))
  ∧ (match DeltaBitPackDecoder.new.setData [8,1,9,0,2,1,255] 0 with
     | .ok d => ((d.decode (List.replicate 9 0) 9).1,
                 (d.decode (List.replicate 9 0) 9).2.2)
     | .error => (.error, [])
     | .panic => (.panic, []))
      = (.ok 9, ([0,1,2,3,4,5,6,7,8] : List Int)) := by
  refine ⟨by decide, by decide⟩

/-- Counterexample to claim C5 as stated: `DictDecoder::set_data` returns
`Ok` for a leading bit-width byte of 33 (no validation at all), and
`DeltaBitPackDecoder::set_data` panics — rather than returning an error —
on a header whose `block_size / num_mini_blocks` ratio is invalid. -/
theorem c5_counterexample :
    (DictDecoder.setData (DictDecoder.new (α := Nat)) [33,0] 1).isOk = true
  ∧ DeltaBitPackDecoder.setData DeltaBitPackDecoder.new [8,3,1,0] 0 = .panic := by
  refine ⟨by decide, by decide⟩

/-- Claim C5 as amended: on a parseable header whose ratio is invalid
(`num_mini_blocks = 0`, or `values_per_mini_block` not a multiple of 8),
`DeltaBitPackDecoder::set_data` panics (division by zero or `assert!`)
instead of returning an error; and `DictDecoder::set_data` performs no
validation of the leading bit-width byte, returning `Ok` even when it
exceeds 32. -/
theorem c5_amended :
    (∀ (s : DeltaBitPackDecoder) (data : List Nat) (n blockSize : Nat)
       (r1 : BitReader) (numMiniBlocks : Nat) (r2 : BitReader) (nv : Nat)
       (r3 : BitReader) (fv : Int) (r4 : BitReader),
       (BitReader.new data).getVlqInt = .ok (blockSize, r1) →
       r1.getVlqInt = .ok (numMiniBlocks, r2) →
       r2.getVlqInt = .ok (nv, r3) →
       r3.getZigzagVlqInt = .ok (fv, r4) →
       (numMiniBlocks = 0 ∨ (blockSize / numMiniBlocks) % 8 ≠ 0) →
       DeltaBitPackDecoder.setData s data n = .panic)
  ∧ (∀ (α : Type) (s : DictDecoder α) (b : Nat) (rest : List Nat) (n : Nat),
       32 < b →
       DictDecoder.setData s (b :: rest) n =
         .ok { s with
               numValues := n,
               rleDecoder := some ((RawRleDecoder.new b).setRleData rest) }) := by
  constructor
  · intro s data n blockSize r1 numMiniBlocks r2 nv r3 fv r4 h1 h2 h3 h4 hbad
    simp only [DeltaBitPackDecoder.setData, h1, h2, h3, h4]
    rcases hbad with hz | hratio
    · rw [if_pos hz]
    · rw [if_neg ?_, if_pos hratio]
      intro hz
      exact hratio (by simp [hz])
  · intro α s b rest n _
    rfl

/-- Witness for the amended C5: the header `[8, 3, 1, 0]` parses with
`block_size = 8`, `num_mini_blocks = 3` (ratio 2, not a multiple of 8) and
panics; `DictDecoder::set_data` on a page with bit-width byte 33 returns
`Ok`. -/
theorem c5_amended_witness :
    DeltaBitPackDecoder.setData DeltaBitPackDecoder.new [8,3,1,0] 7 = .panic
  ∧ DictDecoder.setData (DictDecoder.new (α := Nat)) [33,0] 1 =
      .ok { DictDecoder.new (α := Nat) with
            numValues := 1,
            rleDecoder := some ((RawRleDecoder.new 33).setRleData [0]) } :=
  ⟨c5_amended.1 DeltaBitPackDecoder.new [8,3,1,0] 7 8 ⟨[8,3,1,0], 8⟩ 3
     ⟨[8,3,1,0], 16⟩ 1 ⟨[8,3,1,0], 24⟩ 0 ⟨[8,3,1,0], 32⟩
     (by decide) (by decide) (by decide) (by decide) (Or.inr (by decide)),
   c5_amended.2 Nat DictDecoder.new 33 [0] 1 (by decide)⟩

end Parquet
